import Mathlib

/-!
# go-eth-multicall: batch execution, decoding and name correlation

A shallow embedding of `multicall.go` (`Call`, `CallResponse`, `GetMultiCall`,
`GetCustomMultiCall`, `Execute`, `ExecuteBalances`) and of the two generated
binding methods `TryAggregate` / `TryAggregateBalances` of
`contracts/MultiCall/CustomMulticall2.go`.

Go panics are values of `Panic`; a function that can panic returns `Except Panic _`.
The ABI packer/unpacker and the RPC client are fields of the caller struct in the
source (`caller.Abi`, `caller.Client`) and are fields of `EthMultiCaller` here.
Every use of them is recorded in an effect trace.  The library functions
`json.Marshal`, `json.Unmarshal` and `common.HexToAddress` are modelled from their
library behaviour on the values that reach them.
-/

namespace GoEthMulticall

/-! ## Bytes and Go strings -/

/-- One Go `byte`. -/
abbrev Byte := Fin 256

/-- A Go `[]byte`; the nil slice and the empty slice are both `[]`. -/
abbrev Bytes := List Byte

/-- The byte with value `n mod 256`. -/
def byteOfNat (n : Nat) : Byte := ⟨n % 256, Nat.mod_lt n (by decide)⟩

/-! ## `encoding/base64` (StdEncoding), used by `encoding/json` for `[]byte` -/

/-- The standard base64 alphabet. -/
def b64Alphabet : List Char :=
  "ABCDEFGHIJKLMNOPQRSTUVWXYZabcdefghijklmnopqrstuvwxyz0123456789+/".toList

/-- The alphabet character of a 6-bit value. -/
def b64Char (n : Nat) : Char := b64Alphabet.getD n 'A'

/-- The 6-bit value of an alphabet character, `none` for any other character. -/
def b64Value (c : Char) : Option Nat :=
  let i := b64Alphabet.indexOf c
  if i < 64 then some i else none

/-- Base64 encoding with `=` padding: three bytes become four characters. -/
def b64Encode : Bytes → List Char
  | [] => []
  | [a] =>
    [b64Char (a.val / 4), b64Char (a.val % 4 * 16), '=', '=']
  | [a, b] =>
    [b64Char (a.val / 4), b64Char (a.val % 4 * 16 + b.val / 16),
     b64Char (b.val % 16 * 4), '=']
  | a :: b :: c :: rest =>
    b64Char (a.val / 4) :: b64Char (a.val % 4 * 16 + b.val / 16) ::
      b64Char (b.val % 16 * 4 + c.val / 64) :: b64Char (c.val % 64) :: b64Encode rest

/-- Base64 decoding of padded quanta.  Padding is accepted in the last quantum
only; the unused low bits of a padded quantum are ignored (non-strict mode). -/
def b64DecodeQuanta : List Char → Option Bytes
  | [] => some []
  | c0 :: c1 :: c2 :: c3 :: rest =>
    match b64Value c0, b64Value c1 with
    | some s0, some s1 =>
      if rest = [] ∧ c2 = '=' ∧ c3 = '=' then
        some [byteOfNat (s0 * 4 + s1 / 16)]
      else
        match b64Value c2 with
        | none => none
        | some s2 =>
          if rest = [] ∧ c3 = '=' then
            some [byteOfNat (s0 * 4 + s1 / 16), byteOfNat (s1 % 16 * 16 + s2 / 4)]
          else
            match b64Value c3, b64DecodeQuanta rest with
            | some s3, some tail =>
              some (byteOfNat (s0 * 4 + s1 / 16) :: byteOfNat (s1 % 16 * 16 + s2 / 4) ::
                byteOfNat (s2 % 4 * 64 + s3) :: tail)
            | _, _ => none
    | _, _ => none
  | _ => none

/-- The decoder skips carriage returns and line feeds before reading quanta. -/
def b64Decode (cs : List Char) : Option Bytes :=
  b64DecodeQuanta (cs.filter (fun c => c ≠ '\r' ∧ c ≠ '\n'))

/-! ## JSON values -/

/-- A JSON document.  Numbers are integers: the values marshalled here are
`bool`, `[]byte`, `*big.Int` and structs and slices of them. -/
inductive Json where
  | null
  | bool (b : Bool)
  | num (n : Int)
  | str (s : String)
  | arr (elems : List Json)
  | obj (members : List (String × Json))

/-- The JSON kind named in a `json.UnmarshalTypeError`. -/
def Json.kind : Json → String
  | .null => "null"
  | .bool _ => "bool"
  | .num _ => "number"
  | .str _ => "string"
  | .arr _ => "array"
  | .obj _ => "object"

/-! ## Errors and panics -/

/-- A Go `error`, identified by its message. -/
structure Error where
  msg : String
deriving DecidableEq, Repr

/-- What a Go panic carries: the error handed to `panic(err)`, or the runtime
error of an out-of-range index expression. -/
inductive Panic where
  | err (e : Error)
  | indexOutOfRange (index length : Nat)
deriving DecidableEq, Repr

deriving instance DecidableEq for Except

/-! ## Data model (`multicall.go` lines 18-35, `CustomMulticall2.go` lines 29-39) -/

/-- A `common.Address`: exactly twenty bytes. -/
abbrev Address := { bs : Bytes // bs.length = 20 }

/-- Source: `type Call struct` with fields Name, Target, CallData. -/
structure Call where
  Name : String
  Target : Address
  CallData : Bytes
deriving DecidableEq

/-- Source: `type CallResponse struct`, fields Success and ReturnData. -/
structure CallResponse where
  Success : Bool
  ReturnData : Bytes
deriving DecidableEq, Repr

/-- The struct tag of `CallResponse.Success`: json "success". -/
def CallResponse.successTag : String := "success"

/-- The struct tag of `CallResponse.ReturnData`: json "returnData". -/
def CallResponse.returnDataTag : String := "returnData"

/-- Modelled from the spec: the type declaration `MultiCall2.Multicall2Call` is not
among the source files; the spec gives the call tuple as `(address, bytes)` and
`GetMultiCall` builds it from the two fields Target and CallData. -/
structure Multicall2Call where
  Target : Address
  CallData : Bytes
deriving DecidableEq

/-- Source: `type CustomMulticall2Call struct`. -/
structure CustomMulticall2Call where
  Target : Address
  CallData : Bytes
deriving DecidableEq

/-- Source: `func (call Call) GetMultiCall()`. -/
def Call.GetMultiCall (call : Call) : Multicall2Call :=
  { Target := call.Target, CallData := call.CallData }

/-- Source: `func (call Call) GetCustomMultiCall()`. -/
def Call.GetCustomMultiCall (call : Call) : CustomMulticall2Call :=
  { Target := call.Target, CallData := call.CallData }

/-! ## The result map -/

/-- A Go `map[string]CallResponse`: at most one entry per key. -/
structure GoMap where
  entries : List (String × CallResponse)
deriving DecidableEq, Repr

/-- The result of `make(map[string]CallResponse)`. -/
def GoMap.empty : GoMap := ⟨[]⟩

/-- The assignment `m[k] = v`: any entry already stored under `k` is replaced. -/
def GoMap.set (m : GoMap) (k : String) (v : CallResponse) : GoMap :=
  ⟨(k, v) :: m.entries.filter (fun p => p.1 ≠ k)⟩

/-- The lookup `m[k]` with the comma-ok form. -/
def GoMap.get? (m : GoMap) (k : String) : Option CallResponse :=
  m.entries.lookup k

/-- The value of `len(m)`. -/
def GoMap.len (m : GoMap) : Nat := m.entries.length

/-- The keys of the map. -/
def GoMap.keys (m : GoMap) : List String := m.entries.map Prod.fst

/-! ## Values produced by the ABI unpacker -/

/-- A Go value of one of the elementary output types: `bool`, `[]byte` (ABI
`bytes`) and `*big.Int` (ABI `uint256`). -/
inductive GoScalar where
  | bool (b : Bool)
  | bytes (bs : Bytes)
  | bigInt (n : Nat)
deriving DecidableEq

/-- One element of the `[]interface{}` returned by `Abi.Unpack`: a scalar, or a
slice of the struct type that the unpacker builds by reflection for an ABI tuple
array; each struct field is kept with its json tag, which is the component name of
the ABI description. -/
inductive GoValue where
  | scalar (v : GoScalar)
  | structSlice (elems : List (List (String × GoScalar)))
deriving DecidableEq

/-- The component names of the `(bool,bytes)[]` output of `tryAggregate` and
`tryAggregateBalances` in `MultiCallABI`: "success" and "returnData". -/
def MultiCallABI.resultComponents : String × String := ("success", "returnData")

/-- Source: `type CustomMulticall2Result struct`, the `(bool,bytes)` result tuple. -/
structure CustomMulticall2Result where
  Success : Bool
  ReturnData : Bytes
deriving DecidableEq

/-- The Go value that unpacking a `(bool,bytes)[]` output against `MultiCallABI`
yields for a list of result tuples. -/
def unpackedResults (rs : List CustomMulticall2Result) : GoValue :=
  .structSlice (rs.map fun r =>
    [(MultiCallABI.resultComponents.1, .bool r.Success),
     (MultiCallABI.resultComponents.2, .bytes r.ReturnData)])

/-! ## `encoding/json` on these values

`json.Marshal` and `json.Unmarshal` are modelled on JSON documents; writing the
document as text and parsing it back is not modelled. -/

/-- Marshalling of a scalar: a `[]byte` becomes a base64 string. -/
def marshalScalar : GoScalar → Json
  | .bool b => .bool b
  | .bytes bs => .str (String.mk (b64Encode bs))
  | .bigInt n => .num n

/-- Modelled `json.Marshal` of an unpacked value: a struct becomes an object with
one member per field, keyed by the json tag.  It has no failing case on these
values. -/
def jsonMarshal : GoValue → Except Error Json
  | .scalar v => .ok (marshalScalar v)
  | .structSlice elems =>
    .ok (.arr (elems.map fun fields => .obj (fields.map fun f => (f.1, marshalScalar f.2))))

/-- The error of `json.Unmarshal` for a JSON value that does not fit the Go type. -/
def unmarshalTypeError (j : Json) (goType : String) : Error :=
  ⟨"json: cannot unmarshal " ++ j.kind ++ " into Go value of type " ++ goType⟩

/-- Decoding into a `bool` field; `null` leaves the field as it is. -/
def unmarshalBool (cur : Bool) : Json → Except Error Bool
  | .null => .ok cur
  | .bool b => .ok b
  | j => .error (unmarshalTypeError j "bool")

/-- Decoding one element of a JSON array into a `uint8`. -/
def unmarshalUint8 : Json → Except Error Byte
  | .null => .ok 0
  | .num n => if 0 ≤ n ∧ n < 256 then .ok (byteOfNat n.toNat) else .error ⟨"json: cannot unmarshal number into Go value of type uint8"⟩
  | j => .error (unmarshalTypeError j "uint8")

/-- Decoding the elements of a JSON array of numbers into bytes. -/
def unmarshalUint8s : List Json → Except Error Bytes
  | [] => .ok []
  | j :: rest =>
    match unmarshalUint8 j with
    | .error e => .error e
    | .ok b =>
      match unmarshalUint8s rest with
      | .error e => .error e
      | .ok bs => .ok (b :: bs)

/-- Decoding into a `[]byte` field: a string is read as base64. -/
def unmarshalBytes : Json → Except Error Bytes
  | .null => .ok []
  | .str s =>
    match b64Decode s.data with
    | some bs => .ok bs
    | none => .error ⟨"illegal base64 data"⟩
  | .arr elems => unmarshalUint8s elems
  | j => .error (unmarshalTypeError j "[]uint8")

/-- Case folding of a JSON key for the match against a field name, on ASCII
letters; the keys that reach it in a run are the ASCII tags written by
`jsonMarshal`. -/
def foldKey (s : String) : List Char := s.data.map Char.toLower

/-- Decoding the members of a JSON object into a `CallResponse`, in order: a key
selects the field whose json tag it equals up to case; other keys are skipped. -/
def unmarshalMembers : List (String × Json) → CallResponse → Except Error CallResponse
  | [], r => .ok r
  | (k, v) :: rest, r =>
    if foldKey k = foldKey CallResponse.successTag then
      match unmarshalBool r.Success v with
      | .error e => .error e
      | .ok b => unmarshalMembers rest { r with Success := b }
    else if foldKey k = foldKey CallResponse.returnDataTag then
      match unmarshalBytes v with
      | .error e => .error e
      | .ok bs => unmarshalMembers rest { r with ReturnData := bs }
    else unmarshalMembers rest r

/-- Decoding one JSON value into a fresh `CallResponse`. -/
def unmarshalCallResponse : Json → Except Error CallResponse
  | .null => .ok ⟨false, []⟩
  | .obj members => unmarshalMembers members ⟨false, []⟩
  | j => .error (unmarshalTypeError j "CallResponse")

/-- Decoding the elements of a JSON array into `CallResponse` values. -/
def unmarshalCallResponses : List Json → Except Error (List CallResponse)
  | [] => .ok []
  | j :: rest =>
    match unmarshalCallResponse j with
    | .error e => .error e
    | .ok r =>
      match unmarshalCallResponses rest with
      | .error e => .error e
      | .ok rs => .ok (r :: rs)

/-- Modelled `json.Unmarshal(a, &responses)` for `responses []CallResponse`. -/
def jsonUnmarshal : Json → Except Error (List CallResponse)
  | .null => .ok []
  | .arr elems => unmarshalCallResponses elems
  | j => .error (unmarshalTypeError j "[]CallResponse")

/-! ## `common.HexToAddress` -/

/-- The UTF-8 bytes of one character; a Go string is the sequence of these. -/
def utf8Bytes (c : Char) : List Nat :=
  let v := c.toNat
  if v < 0x80 then [v]
  else if v < 0x800 then [0xC0 + v / 64, 0x80 + v % 64]
  else if v < 0x10000 then [0xE0 + v / 4096, 0x80 + v / 64 % 64, 0x80 + v % 64]
  else [0xF0 + v / 262144, 0x80 + v / 4096 % 64, 0x80 + v / 64 % 64, 0x80 + v % 64]

/-- The bytes of a Go string. -/
def stringBytes (s : String) : List Nat := s.data.flatMap utf8Bytes

/-- The value of a hexadecimal digit byte, `none` for any other byte. -/
def hexDigit (b : Nat) : Option Nat :=
  if 48 ≤ b ∧ b ≤ 57 then some (b - 48)
  else if 97 ≤ b ∧ b ≤ 102 then some (b - 87)
  else if 65 ≤ b ∧ b ≤ 70 then some (b - 55)
  else none

/-- The bytes `hex.DecodeString` has decoded when it stops: it reads pairs of
digits up to the first pair that is not hexadecimal; `Hex2Bytes` drops its error. -/
def Hex2Bytes : List Nat → Bytes
  | p :: q :: rest =>
    match hexDigit p, hexDigit q with
    | some a, some b => byteOfNat (a * 16 + b) :: Hex2Bytes rest
    | _, _ => []
  | _ => []

/-- Library `has0xPrefix`: the string starts with `0x` or `0X`. -/
def has0x : List Nat → Bool
  | 48 :: 120 :: _ => true
  | 48 :: 88 :: _ => true
  | _ => false

/-- Library `common.FromHex`: strip the `0x`, pad an odd length with a leading
`0`, decode. -/
def FromHex (s : List Nat) : Bytes :=
  let s1 := if has0x s then s.drop 2 else s
  let s2 := if s1.length % 2 = 1 then 48 :: s1 else s1
  Hex2Bytes s2

/-- Library `common.BytesToAddress`: keep the last twenty bytes, pad on the left
with zeros. -/
def BytesToAddress (b : Bytes) : Address :=
  ⟨List.replicate (20 - (b.drop (b.length - 20)).length) 0 ++ b.drop (b.length - 20), by
    have h : (b.drop (b.length - 20)).length ≤ 20 := by
      rw [List.length_drop]; omega
    simp only [List.length_append, List.length_replicate]
    omega⟩

/-- Library `common.HexToAddress`. -/
def HexToAddress (s : String) : Address := BytesToAddress (FromHex (stringBytes s))

/-! ## The caller and its two collaborators -/

/-- One argument handed to the variadic `Abi.Pack`. -/
inductive AbiArg where
  | bool (b : Bool)
  | calls (cs : List Multicall2Call)
  | customCalls (cs : List CustomMulticall2Call)
  | address (a : Address)
deriving DecidableEq

/-- The two methods of `abi.ABI` that the source uses. -/
structure ABI where
  Pack : String → List AbiArg → Except Error Bytes
  Unpack : String → Bytes → Except Error (List GoValue)

/-- The fields of `ethereum.CallMsg` that the source sets. -/
structure CallMsg where
  To : Address
  Data : Bytes
deriving DecidableEq

/-- The method of `ethclient.Client` that the source uses. -/
structure Client where
  CallContract : CallMsg → Except Error Bytes

/-- Source: `type EthMultiCaller struct`; the Signer field is never read by
`Execute` or `ExecuteBalances`. -/
structure EthMultiCaller where
  Client : Client
  Abi : ABI
  ContractAddress : Address

/-- One use of a collaborator. -/
inductive Event where
  | pack (method : String) (args : List AbiArg)
  | callContract (msg : CallMsg)
  | unpack (method : String) (data : Bytes)
deriving DecidableEq

/-- What one execution does: the collaborator uses in order, and either the
returned map or the panic. -/
structure Outcome where
  trace : List Event
  result : Except Panic GoMap

/-- The index expression `xs[i]`, which panics out of range. -/
def index {α : Type} (xs : List α) (i : Nat) : Except Panic α :=
  match xs[i]? with
  | some x => .ok x
  | none => .error (.indexOutOfRange i xs.length)

/-! ## `Execute` and `ExecuteBalances` (`multicall.go` lines 84-172) -/

/-- The slice left in `unpackedResp` by `unpackedResp, _ := caller.Abi.Unpack(...)`:
the error is assigned to the blank identifier, and with an error the library
returns the nil slice. -/
def unpackedOrNil : Except Error (List GoValue) → List GoValue
  | .ok vs => vs
  | .error _ => []

/-- Lines 109-117 of `Execute` (and, verbatim, lines 155-163 of `ExecuteBalances`):
index `unpackedResp[0]`, marshal it, unmarshal the document into `responses`. -/
def decodeResponses (unpackedResp : List GoValue) : Except Panic (List CallResponse) :=
  match index unpackedResp 0 with
  | .error p => .error p
  | .ok v =>
    match jsonMarshal v with
    | .error err => .error (.err err)
    | .ok a =>
      match jsonUnmarshal a with
      | .error err => .error (.err err)
      | .ok responses => .ok responses

/-- Lines 121-123 of `Execute`: `for i, response := range responses` with the
body `results[calls[i].Name] = response`; `i` is the index of the head. -/
def Execute.correlate (calls : List Call) :
    List CallResponse → Nat → GoMap → Except Panic GoMap
  | [], _, results => .ok results
  | response :: rest, i, results =>
    match index calls i with
    | .error p => .error p
    | .ok call => Execute.correlate calls rest (i + 1) (results.set call.Name response)

/-- Source: `func (caller *EthMultiCaller) Execute(calls []Call)`. -/
def Execute (caller : EthMultiCaller) (calls : List Call) : Outcome :=
  let multiCalls := calls.foldl (fun acc call => acc ++ [call.GetMultiCall]) []
  let args := [AbiArg.bool false, AbiArg.calls multiCalls]
  match caller.Abi.Pack "tryAggregate" args with
  | .error err => ⟨[.pack "tryAggregate" args], .error (.err err)⟩
  | .ok callData =>
    let msg : CallMsg := ⟨caller.ContractAddress, callData⟩
    match caller.Client.CallContract msg with
    | .error err => ⟨[.pack "tryAggregate" args, .callContract msg], .error (.err err)⟩
    | .ok resp =>
      let unpackedResp := unpackedOrNil (caller.Abi.Unpack "tryAggregate" resp)
      ⟨[.pack "tryAggregate" args, .callContract msg, .unpack "tryAggregate" resp],
        match decodeResponses unpackedResp with
        | .error p => .error p
        | .ok responses => Execute.correlate calls responses 0 GoMap.empty⟩

/-- Lines 167-169 of `ExecuteBalances`: the same loop text as in `Execute`. -/
def ExecuteBalances.correlate (calls : List Call) :
    List CallResponse → Nat → GoMap → Except Panic GoMap
  | [], _, results => .ok results
  | response :: rest, i, results =>
    match index calls i with
    | .error p => .error p
    | .ok call =>
      ExecuteBalances.correlate calls rest (i + 1) (results.set call.Name response)

/-- Source: `func (caller *EthMultiCaller) ExecuteBalances(calls []Call, userAddress string)`.
The line that would read `unpackedResp[1]` is a comment in the source. -/
def ExecuteBalances (caller : EthMultiCaller) (calls : List Call) (userAddress : String) :
    Outcome :=
  let multiCalls := calls.foldl (fun acc call => acc ++ [call.GetCustomMultiCall]) []
  let args := [AbiArg.bool false, AbiArg.customCalls multiCalls,
    AbiArg.address (HexToAddress userAddress)]
  match caller.Abi.Pack "tryAggregateBalances" args with
  | .error err => ⟨[.pack "tryAggregateBalances" args], .error (.err err)⟩
  | .ok callData =>
    let msg : CallMsg := ⟨caller.ContractAddress, callData⟩
    match caller.Client.CallContract msg with
    | .error err =>
      ⟨[.pack "tryAggregateBalances" args, .callContract msg], .error (.err err)⟩
    | .ok resp =>
      let unpackedResp := unpackedOrNil (caller.Abi.Unpack "tryAggregateBalances" resp)
      ⟨[.pack "tryAggregateBalances" args, .callContract msg,
          .unpack "tryAggregateBalances" resp],
        match decodeResponses unpackedResp with
        | .error p => .error p
        | .ok responses => ExecuteBalances.correlate calls responses 0 GoMap.empty⟩

/-! ## The generated binding (`CustomMulticall2.go` lines 476-502) -/

/-- Source: `MultiCallTransactor.TryAggregate`: the method name and the arguments
it hands to `contract.Transact`. -/
def TryAggregate (requireSuccess : Bool) (calls : List CustomMulticall2Call) :
    String × List AbiArg :=
  ("tryAggregate", [.bool requireSuccess, .customCalls calls])

/-- Source: `MultiCallTransactor.TryAggregateBalances`: the method name and the
arguments it hands to `contract.Transact`. -/
def TryAggregateBalances (requireSuccess : Bool) (calls : List CustomMulticall2Call)
    (userAddress : Address) : String × List AbiArg :=
  ("tryAggregateBalances", [.bool requireSuccess, .customCalls calls, .address userAddress])

/-! ## Stub collaborators for concrete runs -/

/-- The error of the library unpacker for an empty response when the method has
outputs. -/
def emptyResponseError : Error :=
  ⟨"abi: attempting to unmarshall an empty string while arguments are expected"⟩

/-- A stub ABI: packing gives the one byte 9; unpacking fails on the empty
response and gives `unpacked` on any other. -/
def stubAbi (unpacked : List GoValue) : ABI :=
  { Pack := fun _ _ => .ok [9]
    Unpack := fun _ data => if data = [] then .error emptyResponseError else .ok unpacked }

/-- The address whose last byte is `n` and whose other bytes are zero. -/
def addr (n : Byte) : Address := ⟨List.replicate 19 0 ++ [n], by simp⟩

/-- A caller over `stubAbi` whose client answers `resp` to every call. -/
def stubCaller (resp : Except Error Bytes) (unpacked : List GoValue) : EthMultiCaller :=
  { Client := ⟨fun _ => resp⟩
    Abi := stubAbi unpacked
    ContractAddress := addr 0 }

/-- A caller whose node answers with a valid encoding of the result tuples `rs`. -/
def echoCaller (rs : List CustomMulticall2Result) : EthMultiCaller :=
  stubCaller (.ok [7]) [unpackedResults rs]

/-- A stub ABI for the balance variant: the first byte of the response is the
native balance, the result tuples are `rs`. -/
def balanceAbi (rs : List CustomMulticall2Result) : ABI :=
  { Pack := fun _ _ => .ok [9]
    Unpack := fun _ data =>
      match data with
      | [] => .error emptyResponseError
      | b :: _ => .ok [unpackedResults rs, .scalar (.bigInt b.val)] }

/-- A caller over `balanceAbi` whose client answers `resp`. -/
def balanceCaller (rs : List CustomMulticall2Result) (resp : Bytes) : EthMultiCaller :=
  { Client := ⟨fun _ => .ok resp⟩
    Abi := balanceAbi rs
    ContractAddress := addr 0 }

/-- A call named `a`. -/
def callA : Call := ⟨"a", addr 1, [1, 2]⟩

/-- A call named `b`. -/
def callB : Call := ⟨"b", addr 2, [3]⟩

/-- A successful result tuple. -/
def resultA : CustomMulticall2Result := ⟨true, [1, 2, 3, 4]⟩

/-- A failed result tuple. -/
def resultB : CustomMulticall2Result := ⟨false, []⟩

/-- A renaming of call names: append an exclamation mark. -/
def bang (s : String) : String := s ++ "!"

/-! ## Derived observations of a run -/

/-- The `CallResponse` with the fields of a result tuple. -/
def responseOf (r : CustomMulticall2Result) : CallResponse :=
  { Success := r.Success, ReturnData := r.ReturnData }

/-- The slice `responses` with which `Execute` enters its correlation loop (lines
94-117): pack, call, unpack, marshal, unmarshal. -/
def Execute.responses (caller : EthMultiCaller) (calls : List Call) :
    Except Panic (List CallResponse) :=
  match caller.Abi.Pack "tryAggregate"
      [.bool false, .calls (calls.foldl (fun acc call => acc ++ [call.GetMultiCall]) [])] with
  | .error err => .error (.err err)
  | .ok callData =>
    match caller.Client.CallContract ⟨caller.ContractAddress, callData⟩ with
    | .error err => .error (.err err)
    | .ok resp => decodeResponses (unpackedOrNil (caller.Abi.Unpack "tryAggregate" resp))

/-- The slice `responses` with which `ExecuteBalances` enters its correlation loop
(lines 138-163). -/
def ExecuteBalances.responses (caller : EthMultiCaller) (calls : List Call)
    (userAddress : String) : Except Panic (List CallResponse) :=
  match caller.Abi.Pack "tryAggregateBalances"
      [.bool false,
       .customCalls (calls.foldl (fun acc call => acc ++ [call.GetCustomMultiCall]) []),
       .address (HexToAddress userAddress)] with
  | .error err => .error (.err err)
  | .ok callData =>
    match caller.Client.CallContract ⟨caller.ContractAddress, callData⟩ with
    | .error err => .error (.err err)
    | .ok resp =>
      decodeResponses (unpackedOrNil (caller.Abi.Unpack "tryAggregateBalances" resp))

/-- Assigning the pairs of a list to a map, in order. -/
def GoMap.setAll (m : GoMap) (ps : List (String × CallResponse)) : GoMap :=
  ps.foldl (fun acc p => acc.set p.1 p.2) m

/-- The spec's `correlate(results, originalCalls)` (section 4.3): the name to result
map built by zipping the two sequences positionally. -/
def correlate (results : List CallResponse) (originalCalls : List Call) : GoMap :=
  GoMap.empty.setAll ((originalCalls.map Call.Name).zip results)

/-- The call list with every name replaced by its image under `f`. -/
def renameCalls (f : String → String) (calls : List Call) : List Call :=
  calls.map fun c => { c with Name := f c.Name }

/-- The calls issued to the RPC client in a run, in order. -/
def rpcCalls : List Event → List CallMsg
  | [] => []
  | .callContract msg :: rest => msg :: rpcCalls rest
  | _ :: rest => rpcCalls rest

/-- The unpack events of a run, in order. -/
def unpackEvents : List Event → List (String × Bytes)
  | [] => []
  | .unpack method data :: rest => (method, data) :: unpackEvents rest
  | _ :: rest => unpackEvents rest

/-- The two fields of a call tuple of the plain variant. -/
def Multicall2Call.fields (c : Multicall2Call) : Address × Bytes := (c.Target, c.CallData)

/-- The two fields of a call tuple of the balance variant. -/
def CustomMulticall2Call.fields (c : CustomMulticall2Call) : Address × Bytes :=
  (c.Target, c.CallData)

/-! ## Well-formed address strings -/

/-- The lower-case hexadecimal digit of a 4-bit value. -/
def hexChar (n : Nat) : Char := "0123456789abcdef".toList.getD n '0'

/-- Two hexadecimal digits per byte. -/
def hexOfBytes : Bytes → List Char
  | [] => []
  | b :: bs => hexChar (b.val / 16) :: hexChar (b.val % 16) :: hexOfBytes bs

/-- The string that denotes an address: `0x` and forty hexadecimal digits. -/
def addressHex (a : Address) : String := String.mk ('0' :: 'x' :: hexOfBytes a.val)

/-- A well-formed address string: `0x` followed by exactly forty hexadecimal
digits. -/
def wellFormedAddress (s : String) : Bool :=
  match s.data with
  | '0' :: 'x' :: digits =>
    digits.length == 40 && digits.all fun c => (hexDigit c.toNat).isSome && c.toNat < 128
  | _ => false

/-- A caller whose node cannot be reached. -/
def unreachableCaller : EthMultiCaller :=
  stubCaller (.error ⟨"dial tcp: connection refused"⟩) [unpackedResults [resultA]]

/-- A caller whose packer rejects its arguments. -/
def unpackableCaller : EthMultiCaller :=
  { Client := ⟨fun _ => .ok [7]⟩
    Abi := ⟨fun _ _ => .error ⟨"abi: argument count mismatch"⟩, fun _ _ => .ok []⟩
    ContractAddress := addr 0 }

/-- A second call named `a`. -/
def callA2 : Call := ⟨"a", addr 3, [5]⟩

/-! ## The library packer `abi.ABI.Pack`

The packer of go-ethereum, on the input types that occur in `MultiCallABI`.  A
parsed ABI is data (the methods with their selectors and input types) and `Pack` is
one fixed algorithm over it: it looks the method up, compares the argument count,
checks the kind of each argument against the declared type and lays the encodings
out in head and tail.  Its error messages name types and kinds, never a value. -/

/-- The input types of the methods of `MultiCallABI`: `bool`, `address`, `uint256`
and the tuple slice `(address,bytes)[]`. -/
inductive AbiType where
  | bool
  | address
  | uint256
  | callTuples
deriving DecidableEq

/-- One method of a parsed ABI: its four-byte selector and its input types. -/
structure Method where
  ID : Bytes
  Inputs : List AbiType

/-- A parsed ABI: the input types of the constructor and the methods by name. -/
structure AbiDescription where
  Constructor : List AbiType
  Methods : List (String × Method)

/-- Library `packNum`: a number as 32 bytes, big-endian. -/
def packNum (n : Nat) : Bytes := (List.range 32).map fun i => byteOfNat (n / 256 ^ (31 - i))

/-- Library `packBytesSlice`: the length, then the bytes padded on the right to a
multiple of 32. -/
def packBytesSlice (bs : Bytes) : Bytes :=
  packNum bs.length ++ bs ++ List.replicate ((bs.length + 31) / 32 * 32 - bs.length) 0

/-- The encoding of an address: padded on the left to 32 bytes. -/
def packAddress (a : Address) : Bytes := List.replicate 12 0 ++ a.val

/-- The encoding of one `(address,bytes)` tuple: the address, the offset 64 of the
dynamic field, then the bytes. -/
def packCallTuple (t : Address × Bytes) : Bytes :=
  packAddress t.1 ++ packNum 64 ++ packBytesSlice t.2

/-- The element loop of the slice encoding: one offset per element in the head,
the element encodings in the tail. -/
def packCallTuplesLoop : List (Address × Bytes) → Nat → Bytes → Bytes → Bytes
  | [], _, ret, tail => ret ++ tail
  | t :: rest, offset, ret, tail =>
    packCallTuplesLoop rest (offset + (packCallTuple t).length) (ret ++ packNum offset)
      (tail ++ packCallTuple t)

/-- The encoding of a `(address,bytes)[]` value: the length, the offsets, the
elements. -/
def packCallTuples (ts : List (Address × Bytes)) : Bytes :=
  packCallTuplesLoop ts (32 * ts.length) (packNum ts.length) []

/-- The Go kind of an argument, as the type errors of the packer name it. -/
def AbiArg.kind : AbiArg → String
  | .bool _ => "bool"
  | .calls _ => "slice"
  | .customCalls _ => "slice"
  | .address _ => "array"

/-- Library `typeErr`. -/
def typeErr (expected got : String) : Error :=
  ⟨"abi: cannot use " ++ got ++ " as type " ++ expected ++ " as argument"⟩

/-- Library `Type.pack`: the kind check of the argument against the declared type,
then its encoding.  A `uint256` wants a `*big.Int`, which no argument here is.  The
wording of a type error differs between library versions; in all of them it is
built from the declared type and the kind of the argument. -/
def AbiType.pack : AbiType → AbiArg → Except Error Bytes
  | .bool, .bool b => .ok (packNum (if b then 1 else 0))
  | .bool, a => .error (typeErr "bool" a.kind)
  | .address, .address x => .ok (packAddress x)
  | .address, a => .error (typeErr "array" a.kind)
  | .uint256, a => .error (typeErr "ptr" a.kind)
  | .callTuples, .calls cs => .ok (packCallTuples (cs.map Multicall2Call.fields))
  | .callTuples, .customCalls cs => .ok (packCallTuples (cs.map CustomMulticall2Call.fields))
  | .callTuples, .bool _ => .error (typeErr "[]slice" "bool")
  | .callTuples, .address _ => .error (typeErr "[]struct" "common.Address")

/-- Library `isDynamicType`. -/
def AbiType.isDynamic : AbiType → Bool
  | .callTuples => true
  | _ => false

/-- The argument loop of library `Arguments.Pack`: a static encoding goes to the
head, a dynamic one to the tail with its offset in the head; the first type error
ends the loop. -/
def packArgumentsLoop : List (AbiType × AbiArg) → Nat → Bytes → Bytes → Except Error Bytes
  | [], _, ret, variableInput => .ok (ret ++ variableInput)
  | (t, a) :: rest, inputOffset, ret, variableInput =>
    match t.pack a with
    | .error err => .error err
    | .ok packed =>
      if t.isDynamic then
        packArgumentsLoop rest (inputOffset + packed.length) (ret ++ packNum inputOffset)
          (variableInput ++ packed)
      else packArgumentsLoop rest inputOffset (ret ++ packed) variableInput

/-- Library `Arguments.Pack`: the count check, then the loop; every input type
here occupies 32 bytes of the head. -/
def packArguments (inputs : List AbiType) (args : List AbiArg) : Except Error Bytes :=
  if args.length ≠ inputs.length then
    .error ⟨"abi: argument count mismatch: got " ++ toString args.length ++ " for "
      ++ toString inputs.length⟩
  else packArgumentsLoop (inputs.zip args) (32 * inputs.length) [] []

/-- Library `abi.ABI.Pack`: the empty name packs for the constructor; otherwise
the method is looked up and its selector is put before the packed arguments. -/
def AbiDescription.Pack (abi : AbiDescription) (name : String) (args : List AbiArg) :
    Except Error Bytes :=
  if name = "" then packArguments abi.Constructor args
  else
    match abi.Methods.lookup name with
    | none => .error ⟨"method '" ++ name ++ "' not found"⟩
    | some method =>
      match packArguments method.Inputs args with
      | .error err => .error err
      | .ok arguments => .ok (method.ID ++ arguments)

/-- The methods of `MultiCallABI` with the selectors that the binding documents. -/
def MultiCallABI.description : AbiDescription :=
  { Constructor := []
    Methods :=
      [("aggregate", ⟨[0x25, 0x2d, 0xba, 0x42], [.callTuples]⟩),
       ("blockAndAggregate", ⟨[0xc3, 0x07, 0x7f, 0xa9], [.callTuples]⟩),
       ("getBlockHash", ⟨[0xee, 0x82, 0xac, 0x5e], [.uint256]⟩),
       ("getBlockNumber", ⟨[0x42, 0xcb, 0xb1, 0x5c], []⟩),
       ("getCurrentBlockCoinbase", ⟨[0xa8, 0xb0, 0x57, 0x4e], []⟩),
       ("getCurrentBlockDifficulty", ⟨[0x72, 0x42, 0x5d, 0x9d], []⟩),
       ("getCurrentBlockGasLimit", ⟨[0x86, 0xd5, 0x16, 0xe8], []⟩),
       ("getCurrentBlockTimestamp", ⟨[0x0f, 0x28, 0xc9, 0x7d], []⟩),
       ("getEthBalance", ⟨[0x4d, 0x23, 0x01, 0xcc], [.address]⟩),
       ("getLastBlockHash", ⟨[0x27, 0xe8, 0x6d, 0x6e], []⟩),
       ("tryAggregate", ⟨[0xbc, 0xe3, 0x8b, 0xd7], [.bool, .callTuples]⟩),
       ("tryAggregateBalances", ⟨[0xc9, 0x2d, 0x84, 0x90], [.bool, .callTuples, .address]⟩),
       ("tryBlockAndAggregate", ⟨[0x39, 0x95, 0x42, 0xe9], [.bool, .callTuples]⟩)] }

/-- The caller that `New` builds: its packer is the library packer over
`MultiCallABI`; the node answers `resp` and the unpacker is the stub. -/
def libraryCaller (resp : Except Error Bytes) (unpacked : List GoValue) : EthMultiCaller :=
  { Client := ⟨fun _ => resp⟩
    Abi := ⟨MultiCallABI.description.Pack, (stubAbi unpacked).Unpack⟩
    ContractAddress := addr 0 }

/-! # Theorems -/

/-! ## Base64 round trip -/

theorem b64Value_b64Char (n : Nat) (h : n < 64) : b64Value (b64Char n) = some n := by
  have key : ∀ k : Fin 64, b64Value (b64Char k.val) = some k.val := by decide
  exact key ⟨n, h⟩

theorem b64Char_ne_special (n : Nat) (h : n < 64) :
    b64Char n ≠ '=' ∧ b64Char n ≠ '\r' ∧ b64Char n ≠ '\n' := by
  have key : ∀ k : Fin 64,
      b64Char k.val ≠ '=' ∧ b64Char k.val ≠ '\r' ∧ b64Char k.val ≠ '\n' := by decide
  exact key ⟨n, h⟩

theorem byteOfNat_val (a : Byte) (n : Nat) (h : n = a.val) : byteOfNat n = a := by
  apply Fin.ext
  simp only [byteOfNat]
  have := a.isLt
  omega

theorem b64DecodeQuanta_b64Encode (bs : Bytes) : b64DecodeQuanta (b64Encode bs) = some bs := by
  induction bs using b64Encode.induct with
  | case1 => simp [b64Encode, b64DecodeQuanta]
  | case2 a =>
    have ha := a.isLt
    simp only [b64Encode, b64DecodeQuanta]
    rw [b64Value_b64Char _ (by omega), b64Value_b64Char _ (by omega)]
    simp only [and_self, if_true]
    congr 2
    exact byteOfNat_val a _ (by omega)
  | case3 a b =>
    have ha := a.isLt
    have hb := b.isLt
    simp only [b64Encode, b64DecodeQuanta]
    rw [b64Value_b64Char _ (by omega), b64Value_b64Char _ (by omega),
      b64Value_b64Char _ (by omega)]
    have h2 := (b64Char_ne_special (b.val % 16 * 4) (by omega)).1
    simp only [h2, false_and, and_false, if_false, and_self, if_true]
    congr 2
    · exact byteOfNat_val a _ (by omega)
    · congr 1
      exact byteOfNat_val b _ (by omega)
  | case4 a b c rest ih =>
    have ha := a.isLt
    have hb := b.isLt
    have hc := c.isLt
    simp only [b64Encode, b64DecodeQuanta]
    rw [b64Value_b64Char _ (by omega), b64Value_b64Char _ (by omega),
      b64Value_b64Char _ (by omega), b64Value_b64Char _ (by omega), ih]
    have h2 := (b64Char_ne_special (b.val % 16 * 4 + c.val / 64) (by omega)).1
    have h3 := (b64Char_ne_special (c.val % 64) (by omega)).1
    simp only [h2, h3, false_and, and_false, if_false]
    congr 2
    · exact byteOfNat_val a _ (by omega)
    · congr 1
      · exact byteOfNat_val b _ (by omega)
      · congr 1
        exact byteOfNat_val c _ (by omega)

theorem b64Encode_filter (bs : Bytes) :
    (b64Encode bs).filter (fun c => c ≠ '\r' ∧ c ≠ '\n') = b64Encode bs := by
  rw [List.filter_eq_self]
  induction bs using b64Encode.induct with
  | case1 => simp [b64Encode]
  | case2 a =>
    have ha := a.isLt
    intro x hx
    simp only [b64Encode, List.mem_cons, List.mem_singleton, List.not_mem_nil, or_false] at hx
    rcases hx with h | h | h | h <;> subst h
    · simpa using (b64Char_ne_special _ (by omega)).2
    · simpa using (b64Char_ne_special _ (by omega)).2
    · decide
    · decide
  | case3 a b =>
    have ha := a.isLt
    have hb := b.isLt
    intro x hx
    simp only [b64Encode, List.mem_cons, List.mem_singleton, List.not_mem_nil, or_false] at hx
    rcases hx with h | h | h | h <;> subst h
    · simpa using (b64Char_ne_special _ (by omega)).2
    · simpa using (b64Char_ne_special _ (by omega)).2
    · simpa using (b64Char_ne_special _ (by omega)).2
    · decide
  | case4 a b c rest ih =>
    have ha := a.isLt
    have hb := b.isLt
    have hc := c.isLt
    intro x hx
    simp only [b64Encode, List.mem_cons] at hx
    rcases hx with h | h | h | h | h
    · subst h; simpa using (b64Char_ne_special _ (by omega)).2
    · subst h; simpa using (b64Char_ne_special _ (by omega)).2
    · subst h; simpa using (b64Char_ne_special _ (by omega)).2
    · subst h; simpa using (b64Char_ne_special _ (by omega)).2
    · exact ih x h

theorem b64Decode_b64Encode (bs : Bytes) : b64Decode (b64Encode bs) = some bs := by
  unfold b64Decode
  rw [b64Encode_filter, b64DecodeQuanta_b64Encode]

/-! ## JSON round trip -/

theorem unmarshalCallResponse_marshal (r : CustomMulticall2Result) :
    unmarshalCallResponse
      (.obj [(MultiCallABI.resultComponents.1, marshalScalar (.bool r.Success)),
             (MultiCallABI.resultComponents.2, marshalScalar (.bytes r.ReturnData))])
      = .ok (responseOf r) := by
  have h1 : foldKey MultiCallABI.resultComponents.1 = foldKey CallResponse.successTag := by
    decide
  have h2 : ¬ foldKey MultiCallABI.resultComponents.2 = foldKey CallResponse.successTag := by
    decide
  have h3 : foldKey MultiCallABI.resultComponents.2 = foldKey CallResponse.returnDataTag := by
    decide
  simp only [unmarshalCallResponse, unmarshalMembers]
  rw [if_pos h1]
  simp only [marshalScalar, unmarshalBool]
  rw [if_neg h2, if_pos h3]
  simp only [unmarshalBytes, b64Decode_b64Encode, responseOf]

theorem unmarshalCallResponses_marshal (rs : List CustomMulticall2Result) :
    unmarshalCallResponses
      ((rs.map fun r =>
          [(MultiCallABI.resultComponents.1, GoScalar.bool r.Success),
           (MultiCallABI.resultComponents.2, GoScalar.bytes r.ReturnData)]).map
        fun fields => Json.obj (fields.map fun f => (f.1, marshalScalar f.2)))
      = .ok (rs.map responseOf) := by
  induction rs with
  | nil => rfl
  | cons r rest ih =>
    simp only [List.map_cons, List.map_nil, unmarshalCallResponses] at ih ⊢
    rw [unmarshalCallResponse_marshal r, ih]

theorem decodeResponses_unpackedResults (rs : List CustomMulticall2Result)
    (rest : List GoValue) :
    decodeResponses (unpackedResults rs :: rest) = .ok (rs.map responseOf) := by
  simp only [decodeResponses, index, List.getElem?_cons_zero, unpackedResults, jsonMarshal,
    jsonUnmarshal, unmarshalCallResponses_marshal]

/-! ### The map -/

theorem lookup_filter_ne (l : List (String × CallResponse)) (k k' : String) :
    (l.filter (fun p => p.1 ≠ k)).lookup k' = if k' = k then none else l.lookup k' := by
  induction l with
  | nil => simp
  | cons p l ih =>
    obtain ⟨a, b⟩ := p
    rw [List.filter_cons]
    by_cases hak : a = k
    · have hd : decide ((a, b).1 ≠ k) = false := by simpa using hak
      rw [hd]
      simp only [Bool.false_eq_true, if_false, ih, List.lookup_cons]
      by_cases h : k' = k
      · simp [h]
      · have hb : (k' == a) = false := by simpa [hak] using h
        simp [h, hb]
    · have hd : decide ((a, b).1 ≠ k) = true := by simpa using hak
      rw [hd]
      simp only [if_true, List.lookup_cons, ih]
      by_cases h : k' = a
      · subst h; simp [hak]
      · have hb : (k' == a) = false := by simpa using h
        simp [hb]

theorem GoMap.get?_set (m : GoMap) (k k' : String) (v : CallResponse) :
    (m.set k v).get? k' = if k' = k then some v else m.get? k' := by
  simp only [GoMap.get?, GoMap.set, List.lookup_cons, lookup_filter_ne]
  by_cases h : k' = k
  · subst h; simp
  · have hb : (k' == k) = false := by simpa using h
    simp [hb, h]

theorem GoMap.get?_setAll (ps : List (String × CallResponse)) (m : GoMap) (k : String) :
    (m.setAll ps).get? k = (ps.reverse.lookup k).or (m.get? k) := by
  induction ps generalizing m with
  | nil => simp [GoMap.setAll]
  | cons p ps ih =>
    have step : m.setAll (p :: ps) = (m.set p.1 p.2).setAll ps := rfl
    rw [step, ih, GoMap.get?_set, List.reverse_cons, List.lookup_append]
    obtain ⟨a, b⟩ := p
    by_cases h : k = a
    · subst h; cases ps.reverse.lookup k <;> simp
    · have : (k == a) = false := by simpa using h
      cases ps.reverse.lookup k <;> simp [List.lookup_cons, this, h]

theorem GoMap.get?_isSome_iff (m : GoMap) (k : String) :
    (m.get? k).isSome ↔ k ∈ m.keys := by
  simp only [GoMap.get?, GoMap.keys, List.lookup_isSome_iff, List.mem_map, beq_iff_eq]
  constructor
  · rintro ⟨p, hp, rfl⟩; exact ⟨p, hp, rfl⟩
  · rintro ⟨p, hp, rfl⟩; exact ⟨p, hp, rfl⟩

theorem GoMap.keys_set (m : GoMap) (k : String) (v : CallResponse) :
    (m.set k v).keys = k :: m.keys.filter (fun a => a ≠ k) := by
  simp only [GoMap.keys, GoMap.set, List.map_cons, List.filter_map]
  rfl

theorem GoMap.nodup_keys_set (m : GoMap) (k : String) (v : CallResponse)
    (h : m.keys.Nodup) : (m.set k v).keys.Nodup := by
  rw [GoMap.keys_set, List.nodup_cons]
  refine ⟨?_, h.filter _⟩
  simp [List.mem_filter]

theorem GoMap.nodup_keys_setAll (ps : List (String × CallResponse)) (m : GoMap)
    (h : m.keys.Nodup) : (m.setAll ps).keys.Nodup := by
  induction ps generalizing m with
  | nil => exact h
  | cons p ps ih => exact ih _ (GoMap.nodup_keys_set m p.1 p.2 h)

theorem GoMap.mem_keys_setAll (ps : List (String × CallResponse)) (m : GoMap) (k : String) :
    k ∈ (m.setAll ps).keys ↔ k ∈ ps.map Prod.fst ∨ k ∈ m.keys := by
  rw [← GoMap.get?_isSome_iff, GoMap.get?_setAll, ← GoMap.get?_isSome_iff]
  have : (ps.reverse.lookup k).isSome ↔ k ∈ ps.map Prod.fst := by
    simp only [List.lookup_isSome_iff, List.mem_reverse, beq_iff_eq, List.mem_map]
    constructor
    · rintro ⟨p, hp, rfl⟩; exact ⟨p, hp, rfl⟩
    · rintro ⟨p, hp, rfl⟩; exact ⟨p, hp, rfl⟩
  rw [← this]
  cases ps.reverse.lookup k <;> simp

/-! ### The loops -/

theorem multiCalls_eq_map (calls : List Call) :
    calls.foldl (fun acc call => acc ++ [call.GetMultiCall]) [] = calls.map Call.GetMultiCall := by
  have gen : ∀ (cs : List Call) (acc : List Multicall2Call),
      cs.foldl (fun acc call => acc ++ [call.GetMultiCall]) acc
        = acc ++ cs.map Call.GetMultiCall := by
    intro cs
    induction cs with
    | nil => intro acc; simp
    | cons c cs ih => intro acc; simp [ih]
  simpa using gen calls []

theorem customMultiCalls_eq_map (calls : List Call) :
    calls.foldl (fun acc call => acc ++ [call.GetCustomMultiCall]) []
      = calls.map Call.GetCustomMultiCall := by
  have gen : ∀ (cs : List Call) (acc : List CustomMulticall2Call),
      cs.foldl (fun acc call => acc ++ [call.GetCustomMultiCall]) acc
        = acc ++ cs.map Call.GetCustomMultiCall := by
    intro cs
    induction cs with
    | nil => intro acc; simp
    | cons c cs ih => intro acc; simp [ih]
  simpa using gen calls []

theorem index_of_lt {α : Type} (xs : List α) (i : Nat) (h : i < xs.length) :
    index xs i = .ok (xs.get ⟨i, h⟩) := by
  simp [index, List.getElem?_eq_getElem h]

theorem index_of_ge {α : Type} (xs : List α) (i : Nat) (h : xs.length ≤ i) :
    index xs i = .error (.indexOutOfRange i xs.length) := by
  simp [index, List.getElem?_eq_none h]

theorem correlate_loops_eq (calls : List Call) (responses : List CallResponse) (i : Nat)
    (m : GoMap) :
    ExecuteBalances.correlate calls responses i m = Execute.correlate calls responses i m := by
  induction responses generalizing i m with
  | nil => rfl
  | cons r rest ih =>
    simp only [ExecuteBalances.correlate, Execute.correlate]
    cases index calls i with
    | error p => rfl
    | ok c => exact ih _ _

theorem correlate_ok (calls : List Call) (responses : List CallResponse) (i : Nat) (m : GoMap)
    (h : responses.length + i ≤ calls.length) :
    Execute.correlate calls responses i m
      = .ok (m.setAll (((calls.drop i).map Call.Name).zip responses)) := by
  induction responses generalizing i m with
  | nil => simp [Execute.correlate, GoMap.setAll]
  | cons r rest ih =>
    have hi : i < calls.length := by simp only [List.length_cons] at h; omega
    simp only [Execute.correlate, index_of_lt calls i hi]
    rw [ih (i + 1) _ (by simp only [List.length_cons] at h; omega)]
    rw [List.drop_eq_getElem_cons hi]
    rfl

theorem correlate_panics (calls : List Call) (responses : List CallResponse) (i : Nat)
    (m : GoMap) (h : calls.length < responses.length + i) (hi : i ≤ calls.length) :
    Execute.correlate calls responses i m
      = .error (.indexOutOfRange calls.length calls.length) := by
  induction responses generalizing i m with
  | nil => simp only [List.length_nil] at h; omega
  | cons r rest ih =>
    by_cases hlt : i < calls.length
    · simp only [Execute.correlate, index_of_lt calls i hlt]
      exact ih (i + 1) _ (by simp only [List.length_cons] at h; omega) (by omega)
    · have he : i = calls.length := by omega
      subst he
      simp only [Execute.correlate, index_of_ge calls calls.length (Nat.le_refl _)]

theorem Execute_result (caller : EthMultiCaller) (calls : List Call) :
    (Execute caller calls).result =
      match Execute.responses caller calls with
      | .error p => .error p
      | .ok responses => Execute.correlate calls responses 0 GoMap.empty := by
  unfold Execute Execute.responses
  simp only
  cases caller.Abi.Pack "tryAggregate"
      [.bool false, .calls (calls.foldl (fun acc call => acc ++ [call.GetMultiCall]) [])] with
  | error e => rfl
  | ok data =>
    simp only
    cases caller.Client.CallContract ⟨caller.ContractAddress, data⟩ with
    | error e => rfl
    | ok resp => rfl

theorem ExecuteBalances_result (caller : EthMultiCaller) (calls : List Call) (u : String) :
    (ExecuteBalances caller calls u).result =
      match ExecuteBalances.responses caller calls u with
      | .error p => .error p
      | .ok responses => ExecuteBalances.correlate calls responses 0 GoMap.empty := by
  unfold ExecuteBalances ExecuteBalances.responses
  simp only
  cases caller.Abi.Pack "tryAggregateBalances"
      [.bool false,
       .customCalls (calls.foldl (fun acc call => acc ++ [call.GetCustomMultiCall]) []),
       .address (HexToAddress u)] with
  | error e => rfl
  | ok data =>
    simp only
    cases caller.Client.CallContract ⟨caller.ContractAddress, data⟩ with
    | error e => rfl
    | ok resp => rfl

theorem Execute_result_ok (caller : EthMultiCaller) (calls : List Call)
    (responses : List CallResponse)
    (hd : Execute.responses caller calls = .ok responses)
    (hlen : responses.length ≤ calls.length) :
    (Execute caller calls).result = .ok (correlate responses calls) := by
  rw [Execute_result, hd]
  simp only
  rw [correlate_ok calls responses 0 GoMap.empty (by omega)]
  rfl

theorem lookup_of_mem_nodup (l : List (String × CallResponse)) (k : String) (v : CallResponse)
    (hnd : (l.map Prod.fst).Nodup) (hmem : (k, v) ∈ l) : l.lookup k = some v := by
  induction l with
  | nil => cases hmem
  | cons p l ih =>
    obtain ⟨a, b⟩ := p
    simp only [List.map_cons, List.nodup_cons] at hnd
    rcases List.mem_cons.1 hmem with h | h
    · cases h; simp
    · have hne : k ≠ a := by
        rintro rfl
        exact hnd.1 (List.mem_map.2 ⟨(k, v), h, rfl⟩)
      have hb : (k == a) = false := by simpa using hne
      simp only [List.lookup_cons, hb]
      exact ih hnd.2 h

theorem map_fst_zip_sublist (l₁ : List String) (l₂ : List CallResponse) :
    ((l₁.zip l₂).map Prod.fst).Sublist l₁ := by
  induction l₁ generalizing l₂ with
  | nil => simp
  | cons a l₁ ih =>
    cases l₂ with
    | nil => simp
    | cons b l₂ =>
      simp only [List.zip_cons_cons, List.map_cons]
      exact (ih l₂).cons₂ a

theorem correlate_get?_of_nodup (calls : List Call) (responses : List CallResponse)
    (hnd : (calls.map Call.Name).Nodup) (i : Nat) (c : Call) (r : CallResponse)
    (hc : calls[i]? = some c) (hr : responses[i]? = some r) :
    (correlate responses calls).get? c.Name = some r := by
  unfold correlate
  rw [GoMap.get?_setAll]
  have hsub := map_fst_zip_sublist (calls.map Call.Name) responses
  have hmem : (c.Name, r) ∈ ((calls.map Call.Name).zip responses).reverse := by
    rw [List.mem_reverse, List.mem_iff_getElem?]
    refine ⟨i, ?_⟩
    simp [List.getElem?_zip_eq_some, hc, hr]
  rw [lookup_of_mem_nodup _ _ _ ?_ hmem]
  · rfl
  · rw [List.map_reverse, List.nodup_reverse]
    exact hnd.sublist hsub

/-! ## C1: positional correlation -/

/-- C1: when `Execute` decodes a result list `responses` of the same length as
`calls` and the call names are pairwise distinct, it returns a map `results` with
`results[calls[i].Name] = responses[i]` at every index `i`. -/
theorem Execute_correlates_positionally (caller : EthMultiCaller) (calls : List Call)
    (responses : List CallResponse)
    (hd : Execute.responses caller calls = .ok responses)
    (hlen : responses.length = calls.length)
    (hnd : (calls.map Call.Name).Nodup) :
    ∃ results, (Execute caller calls).result = .ok results ∧
      ∀ (i : Nat) (c : Call) (r : CallResponse),
        calls[i]? = some c → responses[i]? = some r → results.get? c.Name = some r := by
  refine ⟨correlate responses calls, Execute_result_ok caller calls responses hd (by omega), ?_⟩
  intro i c r hc hr
  exact correlate_get?_of_nodup calls responses hnd i c r hc hr

/-- C1 at two calls `a`, `b` and two decoded results: the map holds the second
result under `b` and the first under `a`. -/
theorem Execute_correlates_positionally_witness :
    ∃ results, (Execute (echoCaller [resultA, resultB]) [callA, callB]).result = .ok results ∧
      results.get? "a" = some (responseOf resultA) ∧
      results.get? "b" = some (responseOf resultB) := by
  obtain ⟨results, hres, hget⟩ :=
    Execute_correlates_positionally (echoCaller [resultA, resultB]) [callA, callB]
      [responseOf resultA, responseOf resultB] (by decide) (by decide) (by decide)
  exact ⟨results, hres, hget 0 callA _ rfl rfl, hget 1 callB _ rfl rfl⟩

/-! ## C2: a length mismatch -/

/-- C2 fails: with two calls and a response that decodes to one result, `Execute`
does not fail; it returns a map with the single entry `a`. -/
theorem Execute_short_response_not_rejected :
    Execute.responses (echoCaller [resultA]) [callA, callB] = .ok [responseOf resultA] ∧
    [responseOf resultA].length ≠ [callA, callB].length ∧
    (Execute (echoCaller [resultA]) [callA, callB]).result
      = .ok ⟨[("a", responseOf resultA)]⟩ := by
  decide

/-- C2 as amended: a decoded result list longer than the call list makes `Execute`
and `ExecuteBalances` fail with the runtime index-out-of-range panic of `calls[i]`
and no map is returned; a shorter one is not rejected, its results are correlated
with the first calls. -/
theorem length_mismatch_behaviour (caller : EthMultiCaller) (calls : List Call)
    (userAddress : String) :
    (∀ responses, Execute.responses caller calls = .ok responses →
      (calls.length < responses.length →
        (Execute caller calls).result
          = .error (.indexOutOfRange calls.length calls.length)) ∧
      (responses.length < calls.length →
        (Execute caller calls).result = .ok (correlate responses calls))) ∧
    (∀ responses, ExecuteBalances.responses caller calls userAddress = .ok responses →
      (calls.length < responses.length →
        (ExecuteBalances caller calls userAddress).result
          = .error (.indexOutOfRange calls.length calls.length)) ∧
      (responses.length < calls.length →
        (ExecuteBalances caller calls userAddress).result
          = .ok (correlate responses calls))) := by
  refine ⟨?_, ?_⟩
  · intro responses hd
    refine ⟨fun hlong => ?_, fun hshort => ?_⟩
    · rw [Execute_result, hd]
      exact correlate_panics calls responses 0 GoMap.empty (by omega) (by omega)
    · exact Execute_result_ok caller calls responses hd (by omega)
  · intro responses hd
    refine ⟨fun hlong => ?_, fun hshort => ?_⟩
    · rw [ExecuteBalances_result, hd]
      simp only [correlate_loops_eq]
      exact correlate_panics calls responses 0 GoMap.empty (by omega) (by omega)
    · rw [ExecuteBalances_result, hd]
      simp only [correlate_loops_eq]
      rw [correlate_ok calls responses 0 GoMap.empty (by omega)]
      rfl

/-- The amended C2 at one call and two decoded results (both variants panic), and
at two calls and one decoded result (both return the one-entry map). -/
theorem length_mismatch_behaviour_witness :
    (Execute (echoCaller [resultA, resultB]) [callA]).result
      = .error (.indexOutOfRange 1 1) ∧
    (ExecuteBalances (echoCaller [resultA, resultB]) [callA] "0x01").result
      = .error (.indexOutOfRange 1 1) ∧
    (Execute (echoCaller [resultA]) [callA, callB]).result
      = .ok (correlate [responseOf resultA] [callA, callB]) ∧
    (ExecuteBalances (echoCaller [resultA]) [callA, callB] "0x01").result
      = .ok (correlate [responseOf resultA] [callA, callB]) :=
  ⟨((length_mismatch_behaviour (echoCaller [resultA, resultB]) [callA] "0x01").1
      [responseOf resultA, responseOf resultB] (by decide)).1 (by decide),
   ((length_mismatch_behaviour (echoCaller [resultA, resultB]) [callA] "0x01").2
      [responseOf resultA, responseOf resultB] (by decide)).1 (by decide),
   ((length_mismatch_behaviour (echoCaller [resultA]) [callA, callB] "0x01").1
      [responseOf resultA] (by decide)).2 (by decide),
   ((length_mismatch_behaviour (echoCaller [resultA]) [callA, callB] "0x01").2
      [responseOf resultA] (by decide)).2 (by decide)⟩

/-! ## C3: the unpack error -/

/-- C3 on the code: on an empty response the unpacker returns its error, `Execute`
and `ExecuteBalances` drop it and panic at `unpackedResp[0]` with the runtime
index-out-of-range error, which is not the unpacker's error. -/
theorem Execute_drops_unpack_error :
    (stubCaller (.ok []) [unpackedResults [resultA]]).Abi.Unpack "tryAggregate" []
      = .error emptyResponseError ∧
    (Execute (stubCaller (.ok []) [unpackedResults [resultA]]) [callA]).result
      = .error (.indexOutOfRange 0 0) ∧
    (ExecuteBalances (stubCaller (.ok []) [unpackedResults [resultA]]) [callA] "0x01").result
      = .error (.indexOutOfRange 0 0) ∧
    Panic.indexOutOfRange 0 0 ≠ Panic.err emptyResponseError := by
  decide

/-! ## C4: one entry per name -/

theorem correlate_keys_nodup (responses : List CallResponse) (calls : List Call) :
    (correlate responses calls).keys.Nodup :=
  GoMap.nodup_keys_setAll _ GoMap.empty (by simp [GoMap.keys, GoMap.empty])

theorem correlate_mem_keys (responses : List CallResponse) (calls : List Call) (k : String) :
    k ∈ (correlate responses calls).keys ↔
      k ∈ ((calls.map Call.Name).zip responses).map Prod.fst := by
  unfold correlate
  rw [GoMap.mem_keys_setAll]
  simp [GoMap.keys, GoMap.empty]

/-- C4: when `Execute` decodes as many results as there are calls and the call
names are pairwise distinct, the returned map has exactly as many entries as there
are calls, and its keys are exactly the call names.  (The list need not be
non-empty for this.) -/
theorem Execute_one_entry_per_name (caller : EthMultiCaller) (calls : List Call)
    (responses : List CallResponse)
    (hd : Execute.responses caller calls = .ok responses)
    (hlen : responses.length = calls.length)
    (hnd : (calls.map Call.Name).Nodup) :
    ∃ results, (Execute caller calls).result = .ok results ∧
      results.len = calls.length ∧
      results.keys.Nodup ∧
      ∀ k, k ∈ results.keys ↔ k ∈ calls.map Call.Name := by
  refine ⟨correlate responses calls, Execute_result_ok caller calls responses hd (by omega), ?_,
    correlate_keys_nodup responses calls, ?_⟩
  · have hkeys : ∀ k, k ∈ (correlate responses calls).keys ↔ k ∈ calls.map Call.Name := by
      intro k
      rw [correlate_mem_keys, List.map_fst_zip _ _ (by simp [hlen])]
    have hperm := (List.perm_ext_iff_of_nodup (correlate_keys_nodup responses calls) hnd).2 hkeys
    have := hperm.length_eq
    simpa [GoMap.len, GoMap.keys] using this
  · intro k
    rw [correlate_mem_keys, List.map_fst_zip _ _ (by simp [hlen])]

/-- C4 at two calls `a`, `b` and two decoded results. -/
theorem Execute_one_entry_per_name_witness :
    ∃ results, (Execute (echoCaller [resultA, resultB]) [callA, callB]).result = .ok results ∧
      results.len = 2 ∧
      results.keys.Nodup ∧
      ∀ k, k ∈ results.keys ↔ k ∈ ["a", "b"] :=
  Execute_one_entry_per_name (echoCaller [resultA, resultB]) [callA, callB]
    [responseOf resultA, responseOf resultB] (by decide) (by decide) (by decide)

/-! ## C5: the requireSuccess argument -/

theorem Execute_trace_head (caller : EthMultiCaller) (calls : List Call) :
    (Execute caller calls).trace.head? =
      some (.pack "tryAggregate" [.bool false, .calls (calls.map Call.GetMultiCall)]) := by
  unfold Execute
  simp only [multiCalls_eq_map]
  cases caller.Abi.Pack "tryAggregate" [.bool false, .calls (calls.map Call.GetMultiCall)] with
  | error e => rfl
  | ok data =>
    simp only
    cases caller.Client.CallContract ⟨caller.ContractAddress, data⟩ with
    | error e => rfl
    | ok resp => rfl

theorem ExecuteBalances_trace_head (caller : EthMultiCaller) (calls : List Call)
    (u : String) :
    (ExecuteBalances caller calls u).trace.head? =
      some (.pack "tryAggregateBalances"
        [.bool false, .customCalls (calls.map Call.GetCustomMultiCall),
         .address (HexToAddress u)]) := by
  unfold ExecuteBalances
  simp only [customMultiCalls_eq_map]
  cases caller.Abi.Pack "tryAggregateBalances"
      [.bool false, .customCalls (calls.map Call.GetCustomMultiCall),
       .address (HexToAddress u)] with
  | error e => rfl
  | ok data =>
    simp only
    cases caller.Client.CallContract ⟨caller.ContractAddress, data⟩ with
    | error e => rfl
    | ok resp => rfl

/-- C5 fails for requireSuccess = true: the first use of a collaborator by
`Execute` and by `ExecuteBalances` is never a pack whose first argument is the
bool `true`. -/
theorem Execute_never_packs_true :
    (¬ ∃ rest, (Execute (echoCaller [resultA]) [callA]).trace.head?
        = some (.pack "tryAggregate" (.bool true :: rest))) ∧
    (¬ ∃ rest, (ExecuteBalances (echoCaller [resultA]) [callA] "0x01").trace.head?
        = some (.pack "tryAggregateBalances" (.bool true :: rest))) := by
  constructor
  · rintro ⟨rest, h⟩
    rw [Execute_trace_head] at h
    simp at h
  · rintro ⟨rest, h⟩
    rw [ExecuteBalances_trace_head] at h
    simp at h

/-- C5 as amended: `Execute` and `ExecuteBalances` have no requireSuccess
parameter and always pack the bool `false` as the first argument of the aggregate
call; the generated `TryAggregate` and `TryAggregateBalances` pass their
requireSuccess parameter on as the first argument. -/
theorem requireSuccess_argument (caller : EthMultiCaller) (calls : List Call)
    (userAddress : String) (requireSuccess : Bool) (cs : List CustomMulticall2Call)
    (a : Address) :
    (∃ rest, (Execute caller calls).trace.head?
        = some (.pack "tryAggregate" (.bool false :: rest))) ∧
    (∃ rest, (ExecuteBalances caller calls userAddress).trace.head?
        = some (.pack "tryAggregateBalances" (.bool false :: rest))) ∧
    (TryAggregate requireSuccess cs).2.head? = some (.bool requireSuccess) ∧
    (TryAggregateBalances requireSuccess cs a).2.head? = some (.bool requireSuccess) :=
  ⟨⟨_, Execute_trace_head caller calls⟩, ⟨_, ExecuteBalances_trace_head caller calls userAddress⟩,
    rfl, rfl⟩

/-! ## C6: the native balance -/

theorem decodeResponses_head (v : GoValue) (rest rest' : List GoValue) :
    decodeResponses (v :: rest) = decodeResponses (v :: rest') := by
  simp [decodeResponses, index]

/-- C6 fails: two responses that differ only in the balance (5 and 7) give the
same output of `ExecuteBalances`. -/
theorem ExecuteBalances_balance_not_returned :
    (balanceCaller [resultA] [5]).Abi.Unpack "tryAggregateBalances" [5]
      = .ok [unpackedResults [resultA], .scalar (.bigInt 5)] ∧
    (balanceCaller [resultA] [7]).Abi.Unpack "tryAggregateBalances" [7]
      = .ok [unpackedResults [resultA], .scalar (.bigInt 7)] ∧
    (ExecuteBalances (balanceCaller [resultA] [5]) [callA] "0x01").result
      = (ExecuteBalances (balanceCaller [resultA] [7]) [callA] "0x01").result := by
  decide

/-- C6 as amended: `ExecuteBalances` returns only the per-call result map; the
values that follow the result list in the unpacked response, the balance among
them, are never read, so two responses that differ only there give the same
output. -/
theorem ExecuteBalances_ignores_balance (caller caller' : EthMultiCaller)
    (calls : List Call) (userAddress : String) (data data' resp resp' : Bytes)
    (v : GoValue) (rest rest' : List GoValue)
    (hp : caller.Abi.Pack "tryAggregateBalances"
      [.bool false, .customCalls (calls.map Call.GetCustomMultiCall),
       .address (HexToAddress userAddress)] = .ok data)
    (hp' : caller'.Abi.Pack "tryAggregateBalances"
      [.bool false, .customCalls (calls.map Call.GetCustomMultiCall),
       .address (HexToAddress userAddress)] = .ok data')
    (hc : caller.Client.CallContract ⟨caller.ContractAddress, data⟩ = .ok resp)
    (hc' : caller'.Client.CallContract ⟨caller'.ContractAddress, data'⟩ = .ok resp')
    (hu : caller.Abi.Unpack "tryAggregateBalances" resp = .ok (v :: rest))
    (hu' : caller'.Abi.Unpack "tryAggregateBalances" resp' = .ok (v :: rest')) :
    (ExecuteBalances caller calls userAddress).result
      = (ExecuteBalances caller' calls userAddress).result := by
  rw [ExecuteBalances_result, ExecuteBalances_result]
  have h1 : ExecuteBalances.responses caller calls userAddress = decodeResponses (v :: rest) := by
    simp only [ExecuteBalances.responses, customMultiCalls_eq_map, hp, hc, hu, unpackedOrNil]
  have h2 : ExecuteBalances.responses caller' calls userAddress
      = decodeResponses (v :: rest') := by
    simp only [ExecuteBalances.responses, customMultiCalls_eq_map, hp', hc', hu', unpackedOrNil]
  rw [h1, h2, decodeResponses_head v rest rest']

/-- The amended C6 at two nodes that report the balances 5 and 7. -/
theorem ExecuteBalances_ignores_balance_witness :
    (ExecuteBalances (balanceCaller [resultA] [5]) [callA] "0x01").result
      = (ExecuteBalances (balanceCaller [resultA] [7]) [callA] "0x01").result :=
  ExecuteBalances_ignores_balance (balanceCaller [resultA] [5]) (balanceCaller [resultA] [7])
    [callA] "0x01" [9] [9] [5] [7] (unpackedResults [resultA])
    [.scalar (.bigInt 5)] [.scalar (.bigInt 7)] (by decide) (by decide) (by decide)
    (by decide) (by decide) (by decide)

/-! ## C7: the call tuples -/

/-- C7: the first thing `Execute` does is hand the packer the bool `false` and a
tuple list that has the length of `calls` and whose i-th element is the Target and
CallData of `calls[i]`; `GetMultiCall` and `GetCustomMultiCall` copy these two
fields and do not depend on the name. -/
theorem Execute_call_tuples (caller : EthMultiCaller) (calls : List Call) :
    (∃ multiCalls : List Multicall2Call,
      (Execute caller calls).trace.head?
        = some (.pack "tryAggregate" [.bool false, .calls multiCalls]) ∧
      multiCalls.length = calls.length ∧
      ∀ i : Nat, multiCalls[i]? =
        calls[i]?.map fun c => ({ Target := c.Target, CallData := c.CallData } : Multicall2Call)) ∧
    (∀ c : Call, c.GetMultiCall.Target = c.Target ∧ c.GetMultiCall.CallData = c.CallData ∧
      c.GetCustomMultiCall.Target = c.Target ∧ c.GetCustomMultiCall.CallData = c.CallData) ∧
    (∀ (c : Call) (n : String), ({ c with Name := n } : Call).GetMultiCall = c.GetMultiCall ∧
      ({ c with Name := n } : Call).GetCustomMultiCall = c.GetCustomMultiCall) := by
  refine ⟨⟨calls.map Call.GetMultiCall, Execute_trace_head caller calls, by simp, ?_⟩, ?_, ?_⟩
  · intro i
    rw [List.getElem?_map]
    rfl
  · intro c
    exact ⟨rfl, rfl, rfl, rfl⟩
  · intro c n
    exact ⟨rfl, rfl⟩

/-! ## C8: renaming -/

theorem renameCalls_map_GetMultiCall (f : String → String) (calls : List Call) :
    (renameCalls f calls).map Call.GetMultiCall = calls.map Call.GetMultiCall := by
  simp only [renameCalls, List.map_map]
  rfl

theorem renameCalls_map_Name (f : String → String) (calls : List Call) :
    (renameCalls f calls).map Call.Name = (calls.map Call.Name).map f := by
  simp only [renameCalls, List.map_map]
  rfl

theorem Execute_responses_rename (caller : EthMultiCaller) (f : String → String)
    (calls : List Call) :
    Execute.responses caller (renameCalls f calls) = Execute.responses caller calls := by
  simp only [Execute.responses, multiCalls_eq_map, renameCalls_map_GetMultiCall]

theorem Execute_trace_eq (caller : EthMultiCaller) (calls calls' : List Call)
    (h : calls'.map Call.GetMultiCall = calls.map Call.GetMultiCall) :
    (Execute caller calls').trace = (Execute caller calls).trace := by
  unfold Execute
  simp only [multiCalls_eq_map, h]
  cases caller.Abi.Pack "tryAggregate" [.bool false, .calls (calls.map Call.GetMultiCall)] with
  | error e => rfl
  | ok data =>
    simp only
    cases caller.Client.CallContract ⟨caller.ContractAddress, data⟩ with
    | error e => rfl
    | ok resp => rfl

theorem lookup_map_injective (f : String → String) (hf : Function.Injective f)
    (l : List (String × CallResponse)) (n : String) :
    (l.map (Prod.map f id)).lookup (f n) = l.lookup n := by
  induction l with
  | nil => rfl
  | cons p l ih =>
    obtain ⟨a, b⟩ := p
    simp only [List.map_cons, Prod.map_apply, id_eq, List.lookup_cons, ih]
    by_cases h : n = a
    · subst h; simp
    · have h1 : (n == a) = false := by simpa using h
      have h2 : (f n == f a) = false := by simpa using fun e => h (hf e)
      rw [h1, h2]

theorem correlate_rename_get? (f : String → String) (hf : Function.Injective f)
    (responses : List CallResponse) (calls : List Call) (n : String) :
    (correlate responses (renameCalls f calls)).get? (f n)
      = (correlate responses calls).get? n := by
  unfold correlate
  rw [GoMap.get?_setAll, GoMap.get?_setAll, renameCalls_map_Name, List.zip_map_left,
    ← List.map_reverse, lookup_map_injective f hf]
  rfl

theorem renameCalls_length (f : String → String) (calls : List Call) :
    (renameCalls f calls).length = calls.length := by
  simp [renameCalls]

/-- C8: for an injective renaming `f` of call names, `Execute` on the renamed calls
uses its collaborators exactly as on the original calls and fails exactly when the
original run fails, with the same panic; when the original run returns a map, the
renamed run returns a map in which `f n` looks up what `n` looks up in the
original, and `f n` is a key of the one exactly when `n` is a key of the other. -/
theorem Execute_rename_invariant (caller : EthMultiCaller) (calls : List Call)
    (f : String → String) (hf : Function.Injective f) :
    (Execute caller (renameCalls f calls)).trace = (Execute caller calls).trace ∧
    (∀ p, (Execute caller calls).result = .error p →
      (Execute caller (renameCalls f calls)).result = .error p) ∧
    (∀ results, (Execute caller calls).result = .ok results →
      ∃ renamed, (Execute caller (renameCalls f calls)).result = .ok renamed ∧
        ∀ n, renamed.get? (f n) = results.get? n ∧
          (f n ∈ renamed.keys ↔ n ∈ results.keys)) := by
  refine ⟨Execute_trace_eq caller calls _ (renameCalls_map_GetMultiCall f calls), ?_, ?_⟩
  · intro p hp
    rw [Execute_result] at hp
    rw [Execute_result, Execute_responses_rename]
    cases hd : Execute.responses caller calls with
    | error q => rw [hd] at hp; exact hp
    | ok responses =>
      rw [hd] at hp
      simp only at hp ⊢
      by_cases hlen : responses.length ≤ calls.length
      · rw [correlate_ok calls responses 0 GoMap.empty (by omega)] at hp
        cases hp
      · rw [correlate_panics calls responses 0 GoMap.empty (by omega) (by omega)] at hp
        rw [correlate_panics _ responses 0 GoMap.empty
          (by rw [renameCalls_length]; omega) (by omega), renameCalls_length]
        exact hp
  · intro results hres
    rw [Execute_result] at hres
    rw [Execute_result, Execute_responses_rename]
    cases hd : Execute.responses caller calls with
    | error q => rw [hd] at hres; cases hres
    | ok responses =>
      rw [hd] at hres
      simp only at hres ⊢
      by_cases hlen : responses.length ≤ calls.length
      · rw [correlate_ok calls responses 0 GoMap.empty (by omega)] at hres
        rw [correlate_ok _ responses 0 GoMap.empty (by rw [renameCalls_length]; omega)]
        refine ⟨_, rfl, ?_⟩
        have hres' : correlate responses calls = results := by
          simpa [correlate] using hres
        have key : ∀ n, (correlate responses (renameCalls f calls)).get? (f n)
            = results.get? n := by
          intro n
          rw [← hres']
          exact correlate_rename_get? f hf responses calls n
        intro n
        refine ⟨key n, ?_⟩
        rw [← GoMap.get?_isSome_iff, ← GoMap.get?_isSome_iff]
        have := key n
        simp only [correlate, List.drop_zero] at this ⊢
        rw [this]
      · rw [correlate_panics calls responses 0 GoMap.empty (by omega) (by omega)] at hres
        cases hres

theorem bang_injective : Function.Injective bang := by
  intro s t h
  have h' : (s ++ "!").data = (t ++ "!").data := congrArg String.data h
  rw [String.data_append, String.data_append] at h'
  exact String.ext (List.append_cancel_right h')

/-- C8 at two calls renamed by appending an exclamation mark. -/
theorem Execute_rename_invariant_witness :
    (Execute (echoCaller [resultA, resultB]) (renameCalls bang [callA, callB])).trace
      = (Execute (echoCaller [resultA, resultB]) [callA, callB]).trace ∧
    ∃ renamed,
      (Execute (echoCaller [resultA, resultB]) (renameCalls bang [callA, callB])).result
        = .ok renamed ∧
      renamed.get? (bang "a") = some (responseOf resultA) ∧
      renamed.get? (bang "b") = some (responseOf resultB) := by
  obtain ⟨htrace, _, hok⟩ :=
    Execute_rename_invariant (echoCaller [resultA, resultB]) [callA, callB] bang bang_injective
  obtain ⟨renamed, hres, hget⟩ := hok ⟨[("b", responseOf resultB), ("a", responseOf resultA)]⟩
    (by decide)
  refine ⟨htrace, renamed, hres, ?_, ?_⟩
  · rw [(hget "a").1]; decide
  · rw [(hget "b").1]; decide

/-! ## C9: one correlation for both variants -/

/-- C9: the correlation loops of `Execute` and `ExecuteBalances` are the same
function of the calls and the decoded results, so whenever the two variants decode
the same result list they return the same map or fail with the same panic. -/
theorem correlation_same_in_both_variants (caller : EthMultiCaller) (calls : List Call)
    (userAddress : String) :
    (∀ responses,
      ExecuteBalances.correlate calls responses 0 GoMap.empty
        = Execute.correlate calls responses 0 GoMap.empty) ∧
    (ExecuteBalances.responses caller calls userAddress = Execute.responses caller calls →
      (ExecuteBalances caller calls userAddress).result = (Execute caller calls).result) := by
  refine ⟨fun responses => correlate_loops_eq calls responses 0 GoMap.empty, ?_⟩
  intro h
  rw [ExecuteBalances_result, Execute_result, h]
  cases Execute.responses caller calls with
  | error p => rfl
  | ok responses => exact correlate_loops_eq calls responses 0 GoMap.empty

/-- C9 at two calls and two decoded results. -/
theorem correlation_same_in_both_variants_witness :
    (ExecuteBalances (echoCaller [resultA, resultB]) [callA, callB] "0x01").result
      = (Execute (echoCaller [resultA, resultB]) [callA, callB]).result :=
  (correlation_same_in_both_variants (echoCaller [resultA, resultB]) [callA, callB] "0x01").2
    (by decide)

/-! ## C10: the decoding round trip -/

/-- C10: when the packer and the client succeed and the response is a valid
encoding of the result tuples `rs`, that is, the unpacker returns them as its first
value, the responses that `Execute` obtains by marshalling that value to JSON and
unmarshalling it into `[]CallResponse` are exactly the tuples of `rs`, in the same
order, each with its success flag and its return bytes. -/
theorem Execute_responses_roundtrip (caller : EthMultiCaller) (calls : List Call)
    (data resp : Bytes) (rs : List CustomMulticall2Result) (rest : List GoValue)
    (hp : caller.Abi.Pack "tryAggregate" [.bool false, .calls (calls.map Call.GetMultiCall)]
      = .ok data)
    (hc : caller.Client.CallContract ⟨caller.ContractAddress, data⟩ = .ok resp)
    (hu : caller.Abi.Unpack "tryAggregate" resp = .ok (unpackedResults rs :: rest)) :
    Execute.responses caller calls = .ok (rs.map responseOf) ∧
    (rs.map responseOf).length = rs.length ∧
    ∀ i : Nat, (rs.map responseOf)[i]? =
      rs[i]?.map fun r => ({ Success := r.Success, ReturnData := r.ReturnData } : CallResponse) := by
  refine ⟨?_, by simp, ?_⟩
  · simp only [Execute.responses, multiCalls_eq_map, hp, hc, hu, unpackedOrNil,
      decodeResponses_unpackedResults]
  · intro i
    rw [List.getElem?_map]
    rfl

/-- C10 at the lengths 0, 1 and 50. -/
theorem Execute_responses_roundtrip_witness :
    Execute.responses (echoCaller []) [] = .ok [] ∧
    Execute.responses (echoCaller [resultA]) [callA] = .ok [responseOf resultA] ∧
    Execute.responses (echoCaller (List.replicate 50 resultA)) (List.replicate 50 callA)
      = .ok (List.replicate 50 (responseOf resultA)) :=
  ⟨(Execute_responses_roundtrip (echoCaller []) [] [9] [7] [] [] rfl rfl rfl).1,
   (Execute_responses_roundtrip (echoCaller [resultA]) [callA] [9] [7] [resultA] []
      rfl rfl rfl).1,
   by
    have h := (Execute_responses_roundtrip (echoCaller (List.replicate 50 resultA))
      (List.replicate 50 callA) [9] [7] (List.replicate 50 resultA) [] rfl rfl rfl).1
    rw [List.map_replicate] at h
    exact h⟩

/-! ## Helper lemmas for the trace, repeated names and short responses -/

theorem Execute_responses_of_unpacked (caller : EthMultiCaller) (calls : List Call)
    (data resp : Bytes) (rs : List CustomMulticall2Result) (rest : List GoValue)
    (hp : caller.Abi.Pack "tryAggregate" [.bool false, .calls (calls.map Call.GetMultiCall)]
      = .ok data)
    (hc : caller.Client.CallContract ⟨caller.ContractAddress, data⟩ = .ok resp)
    (hu : caller.Abi.Unpack "tryAggregate" resp = .ok (unpackedResults rs :: rest)) :
    Execute.responses caller calls = .ok (rs.map responseOf) := by
  simp only [Execute.responses, multiCalls_eq_map, hp, hc, hu, unpackedOrNil,
    decodeResponses_unpackedResults]

theorem ExecuteBalances_result_ok (caller : EthMultiCaller) (calls : List Call)
    (userAddress : String) (responses : List CallResponse)
    (hd : ExecuteBalances.responses caller calls userAddress = .ok responses)
    (hlen : responses.length ≤ calls.length) :
    (ExecuteBalances caller calls userAddress).result = .ok (correlate responses calls) := by
  rw [ExecuteBalances_result, hd]
  simp only [correlate_loops_eq]
  rw [correlate_ok calls responses 0 GoMap.empty (by omega)]
  rfl

theorem map_fst_zip_take (l₁ : List String) (l₂ : List CallResponse) :
    (l₁.zip l₂).map Prod.fst = l₁.take l₂.length := by
  induction l₁ generalizing l₂ with
  | nil => simp
  | cons a l₁ ih =>
    cases l₂ with
    | nil => simp
    | cons b l₂ => simp [ih]

theorem lookup_reverse_last (l : List (String × CallResponse)) (j : Nat) (k : String)
    (v : CallResponse) (hj : l[j]? = some (k, v))
    (hlast : ∀ (j' : Nat) (p : String × CallResponse), j < j' → l[j']? = some p → p.1 ≠ k) :
    l.reverse.lookup k = some v := by
  have hlt : j < l.length := by
    rcases Nat.lt_or_ge j l.length with h | h
    · exact h
    · rw [List.getElem?_eq_none h] at hj; cases hj
  have hget : l[j] = (k, v) := by
    rw [List.getElem?_eq_getElem hlt] at hj
    exact Option.some.inj hj
  have hsplit : l = l.take j ++ (k, v) :: l.drop (j + 1) := by
    conv_lhs => rw [← List.take_append_drop j l, List.drop_eq_getElem_cons hlt, hget]
  rw [List.lookup_eq_some_iff]
  refine ⟨(l.drop (j + 1)).reverse, (l.take j).reverse, ?_, ?_⟩
  · conv_lhs => rw [hsplit]
    simp
  · intro p hp
    rw [List.mem_reverse, List.mem_iff_getElem?] at hp
    obtain ⟨n, hn⟩ := hp
    rw [List.getElem?_drop] at hn
    have := hlast (j + 1 + n) p (by omega) hn
    simpa using fun e => this e.symm

theorem correlate_get?_last (calls : List Call) (responses : List CallResponse) (j : Nat)
    (c : Call) (r : CallResponse) (hc : calls[j]? = some c) (hr : responses[j]? = some r)
    (hlast : ∀ (j' : Nat) (c' : Call), j < j' → j' < responses.length →
      calls[j']? = some c' → c'.Name ≠ c.Name) :
    (correlate responses calls).get? c.Name = some r := by
  unfold correlate
  rw [GoMap.get?_setAll,
    lookup_reverse_last ((calls.map Call.Name).zip responses) j c.Name r ?_ ?_]
  · rfl
  · simp [List.getElem?_zip_eq_some, hc, hr]
  · intro j' p hjj' hp
    rw [List.getElem?_zip_eq_some] at hp
    obtain ⟨hp1, hp2⟩ := hp
    rw [List.getElem?_map] at hp1
    cases hc' : calls[j']? with
    | none => rw [hc'] at hp1; cases hp1
    | some c' =>
      rw [hc'] at hp1
      have hname : c'.Name = p.1 := by simpa using hp1
      have hlt : j' < responses.length := by
        rcases Nat.lt_or_ge j' responses.length with h | h
        · exact h
        · rw [List.getElem?_eq_none h] at hp2; cases hp2
      rw [← hname]
      exact hlast j' c' hjj' hlt hc'

theorem correlate_mem_keys_take (responses : List CallResponse) (calls : List Call)
    (k : String) :
    k ∈ (correlate responses calls).keys ↔
      k ∈ (calls.take responses.length).map Call.Name := by
  rw [correlate_mem_keys, map_fst_zip_take, List.map_take]

/-! ## C11: a transport error -/

/-- C11: when packing succeeds and the RPC client's call returns an error,
`Execute` and `ExecuteBalances` panic with that very error; the run consists of the
pack and the one call, nothing is unpacked and no map is returned. -/
theorem transport_error_propagates (caller : EthMultiCaller) (calls : List Call)
    (userAddress : String) (data : Bytes) (e : Error) :
    (caller.Abi.Pack "tryAggregate" [.bool false, .calls (calls.map Call.GetMultiCall)]
        = .ok data →
      caller.Client.CallContract ⟨caller.ContractAddress, data⟩ = .error e →
      (Execute caller calls).result = .error (.err e) ∧
      (Execute caller calls).trace =
        [.pack "tryAggregate" [.bool false, .calls (calls.map Call.GetMultiCall)],
         .callContract ⟨caller.ContractAddress, data⟩] ∧
      unpackEvents (Execute caller calls).trace = []) ∧
    (caller.Abi.Pack "tryAggregateBalances"
        [.bool false, .customCalls (calls.map Call.GetCustomMultiCall),
         .address (HexToAddress userAddress)] = .ok data →
      caller.Client.CallContract ⟨caller.ContractAddress, data⟩ = .error e →
      (ExecuteBalances caller calls userAddress).result = .error (.err e) ∧
      (ExecuteBalances caller calls userAddress).trace =
        [.pack "tryAggregateBalances"
           [.bool false, .customCalls (calls.map Call.GetCustomMultiCall),
            .address (HexToAddress userAddress)],
         .callContract ⟨caller.ContractAddress, data⟩] ∧
      unpackEvents (ExecuteBalances caller calls userAddress).trace = []) := by
  refine ⟨fun hp hc => ?_, fun hp hc => ?_⟩
  · have h : Execute caller calls =
        ⟨[.pack "tryAggregate" [.bool false, .calls (calls.map Call.GetMultiCall)],
          .callContract ⟨caller.ContractAddress, data⟩], .error (.err e)⟩ := by
      unfold Execute
      simp only [multiCalls_eq_map, hp, hc]
    rw [h]
    exact ⟨rfl, rfl, rfl⟩
  · have h : ExecuteBalances caller calls userAddress =
        ⟨[.pack "tryAggregateBalances"
            [.bool false, .customCalls (calls.map Call.GetCustomMultiCall),
             .address (HexToAddress userAddress)],
          .callContract ⟨caller.ContractAddress, data⟩], .error (.err e)⟩ := by
      unfold ExecuteBalances
      simp only [customMultiCalls_eq_map, hp, hc]
    rw [h]
    exact ⟨rfl, rfl, rfl⟩

/-- C11 at a node that refuses the connection. -/
theorem transport_error_propagates_witness :
    (Execute unreachableCaller [callA, callB]).result
      = .error (.err ⟨"dial tcp: connection refused"⟩) ∧
    unpackEvents (Execute unreachableCaller [callA, callB]).trace = [] ∧
    (ExecuteBalances unreachableCaller [callA, callB] "0x01").result
      = .error (.err ⟨"dial tcp: connection refused"⟩) ∧
    unpackEvents (ExecuteBalances unreachableCaller [callA, callB] "0x01").trace = [] :=
  have h := transport_error_propagates unreachableCaller [callA, callB] "0x01" [9]
    ⟨"dial tcp: connection refused"⟩
  ⟨(h.1 rfl rfl).1, (h.1 rfl rfl).2.2, (h.2 rfl rfl).1, (h.2 rfl rfl).2.2⟩

/-! ## C12: failed sub-calls -/

/-- C12: when the node answers with a valid encoding of as many result tuples as
there are calls and the call names are pairwise distinct, `Execute` returns a map
whatever the success flags are, and every tuple with success = false is in the map
under the name of the call at its index, with success = false and its return data
unchanged. -/
theorem failed_subcall_is_an_entry (caller : EthMultiCaller) (calls : List Call)
    (data resp : Bytes) (rs : List CustomMulticall2Result) (rest : List GoValue)
    (hp : caller.Abi.Pack "tryAggregate" [.bool false, .calls (calls.map Call.GetMultiCall)]
      = .ok data)
    (hc : caller.Client.CallContract ⟨caller.ContractAddress, data⟩ = .ok resp)
    (hu : caller.Abi.Unpack "tryAggregate" resp = .ok (unpackedResults rs :: rest))
    (hlen : rs.length = calls.length)
    (hnd : (calls.map Call.Name).Nodup) :
    ∃ results, (Execute caller calls).result = .ok results ∧
      ∀ (i : Nat) (c : Call) (r : CustomMulticall2Result),
        calls[i]? = some c → rs[i]? = some r → r.Success = false →
          results.get? c.Name = some { Success := false, ReturnData := r.ReturnData } ∧
          c.Name ∈ results.keys := by
  have hd := Execute_responses_of_unpacked caller calls data resp rs rest hp hc hu
  refine ⟨correlate (rs.map responseOf) calls,
    Execute_result_ok caller calls _ hd (by simp [hlen]), ?_⟩
  intro i c r hci hri hfalse
  have hget : (correlate (rs.map responseOf) calls).get? c.Name = some (responseOf r) :=
    correlate_get?_of_nodup calls _ hnd i c (responseOf r) hci (by simp [hri])
  refine ⟨?_, ?_⟩
  · rw [hget, responseOf, hfalse]
  · rw [← GoMap.get?_isSome_iff, hget]
    rfl

/-- C12 at two calls of which the second fails. -/
theorem failed_subcall_is_an_entry_witness :
    ∃ results, (Execute (echoCaller [resultA, resultB]) [callA, callB]).result = .ok results ∧
      results.get? "b" = some { Success := false, ReturnData := [] } ∧
      "b" ∈ results.keys := by
  obtain ⟨results, hres, h⟩ :=
    failed_subcall_is_an_entry (echoCaller [resultA, resultB]) [callA, callB] [9] [7]
      [resultA, resultB] [] rfl rfl rfl (by decide) (by decide)
  exact ⟨results, hres, h 1 callB resultB rfl rfl rfl⟩

/-! ## C13: the empty call list -/

/-- C13: for the empty call list and a response that decodes to the empty result
list, `Execute` returns the empty map, and the call-tuple list it hands to the
packer is the empty list. -/
theorem Execute_empty_calls (caller : EthMultiCaller)
    (hd : Execute.responses caller [] = .ok []) :
    (Execute caller []).result = .ok GoMap.empty ∧
    (Execute caller []).trace.head? = some (.pack "tryAggregate" [.bool false, .calls []]) := by
  refine ⟨?_, Execute_trace_head caller []⟩
  rw [Execute_result, hd]
  rfl

/-- C13 at a node that answers with the encoding of no result. -/
theorem Execute_empty_calls_witness :
    (Execute (echoCaller []) []).result = .ok GoMap.empty ∧
    (Execute (echoCaller []) []).trace.head?
      = some (.pack "tryAggregate" [.bool false, .calls []]) :=
  Execute_empty_calls (echoCaller []) (by decide)

/-! ## Helper lemmas for address strings -/

theorem hexChar_spec (n : Nat) (h : n < 16) :
    utf8Bytes (hexChar n) = [(hexChar n).toNat] ∧ hexDigit (hexChar n).toNat = some n ∧
      (hexChar n).toNat < 128 := by
  have key : ∀ k : Fin 16,
      utf8Bytes (hexChar k.val) = [(hexChar k.val).toNat] ∧
        hexDigit (hexChar k.val).toNat = some k.val ∧ (hexChar k.val).toNat < 128 := by
    decide
  exact key ⟨n, h⟩

theorem Hex2Bytes_hexOfBytes (bs : Bytes) :
    Hex2Bytes ((hexOfBytes bs).flatMap utf8Bytes) = bs := by
  induction bs with
  | nil => rfl
  | cons b bs ih =>
    have hb := b.isLt
    have h1 := hexChar_spec (b.val / 16) (by omega)
    have h2 := hexChar_spec (b.val % 16) (by omega)
    simp only [hexOfBytes, List.flatMap_cons, h1.1, h2.1, List.singleton_append, Hex2Bytes,
      h1.2.1, h2.2.1, ih]
    congr 1
    exact byteOfNat_val b _ (by omega)

theorem length_hexOfBytes_utf8 (bs : Bytes) :
    ((hexOfBytes bs).flatMap utf8Bytes).length = 2 * bs.length := by
  induction bs with
  | nil => rfl
  | cons b bs ih =>
    have hb := b.isLt
    have h1 := hexChar_spec (b.val / 16) (by omega)
    have h2 := hexChar_spec (b.val % 16) (by omega)
    simp only [hexOfBytes, List.flatMap_cons, h1.1, h2.1, List.singleton_append,
      List.length_cons, ih]
    omega

theorem BytesToAddress_val (a : Address) : BytesToAddress a.val = a := by
  apply Subtype.ext
  have h := a.property
  simp [BytesToAddress, h]

theorem HexToAddress_addressHex (a : Address) : HexToAddress (addressHex a) = a := by
  have hsb : stringBytes (addressHex a) = 48 :: 120 :: (hexOfBytes a.val).flatMap utf8Bytes := by
    simp only [stringBytes, addressHex, List.flatMap_cons]
    rfl
  have hlen := length_hexOfBytes_utf8 a.val
  unfold HexToAddress FromHex
  rw [hsb]
  have hpar : ((hexOfBytes a.val).flatMap utf8Bytes).length % 2 ≠ 1 := by omega
  simp only [has0x, if_true, List.drop_succ_cons, List.drop_zero, hpar, if_false,
    Hex2Bytes_hexOfBytes]
  exact BytesToAddress_val a

theorem length_hexOfBytes (bs : Bytes) : (hexOfBytes bs).length = 2 * bs.length := by
  induction bs with
  | nil => rfl
  | cons b bs ih => simp only [hexOfBytes, List.length_cons, ih]; omega

theorem hexOfBytes_all (bs : Bytes) :
    (hexOfBytes bs).all (fun c => (hexDigit c.toNat).isSome && c.toNat < 128) = true := by
  induction bs with
  | nil => rfl
  | cons b bs ih =>
    have hb := b.isLt
    have h1 := hexChar_spec (b.val / 16) (by omega)
    have h2 := hexChar_spec (b.val % 16) (by omega)
    simp only [hexOfBytes, List.all_cons, ih, h1.2.1, h2.2.1, Option.isSome_some, Bool.true_and,
      Bool.and_true, decide_eq_true_eq, h1.2.2, h2.2.2, decide_True]

theorem wellFormedAddress_addressHex (a : Address) : wellFormedAddress (addressHex a) = true := by
  simp only [wellFormedAddress, addressHex, length_hexOfBytes, a.property, hexOfBytes_all]
  rfl

theorem ExecuteBalances_congr_address (caller : EthMultiCaller) (calls : List Call)
    (u w : String) (h : HexToAddress u = HexToAddress w) :
    ExecuteBalances caller calls u = ExecuteBalances caller calls w := by
  unfold ExecuteBalances
  rw [h]

/-! ## C14: the arguments of the balance variant -/

/-- C14: `ExecuteBalances` hands the packer three arguments for
`tryAggregateBalances`: the bool that `Execute` packs, a call-tuple list with the
same (Target, CallData) pairs as the list `Execute` packs for the same calls, and
one trailing address, the conversion of `userAddress`; for the string that denotes
an address, that conversion is the address itself. -/
theorem ExecuteBalances_pack_arguments (caller : EthMultiCaller) (calls : List Call)
    (userAddress : String) :
    (∃ (b : Bool) (tuples : List Multicall2Call) (customTuples : List CustomMulticall2Call),
      (Execute caller calls).trace.head?
        = some (.pack "tryAggregate" [.bool b, .calls tuples]) ∧
      (ExecuteBalances caller calls userAddress).trace.head?
        = some (.pack "tryAggregateBalances"
            [.bool b, .customCalls customTuples, .address (HexToAddress userAddress)]) ∧
      customTuples.map CustomMulticall2Call.fields = tuples.map Multicall2Call.fields) ∧
    (∀ a : Address, HexToAddress (addressHex a) = a) := by
  refine ⟨⟨false, calls.map Call.GetMultiCall, calls.map Call.GetCustomMultiCall,
    Execute_trace_head caller calls, ExecuteBalances_trace_head caller calls userAddress, ?_⟩,
    HexToAddress_addressHex⟩
  simp only [List.map_map]
  rfl

/-! ## C15: one call to the RPC client -/

/-- C15: a run of `Execute` that returns a map has issued exactly one call to the
RPC client, a `CallContract` (the read-only call, the only client method the source
uses) to the caller's `ContractAddress` with the packed `tryAggregate` payload as
data; a run whose packing fails issues no call. -/
theorem Execute_issues_one_call (caller : EthMultiCaller) (calls : List Call) :
    (∀ results, (Execute caller calls).result = .ok results →
      ∃ data,
        caller.Abi.Pack "tryAggregate" [.bool false, .calls (calls.map Call.GetMultiCall)]
          = .ok data ∧
        rpcCalls (Execute caller calls).trace = [⟨caller.ContractAddress, data⟩]) ∧
    (∀ e,
      caller.Abi.Pack "tryAggregate" [.bool false, .calls (calls.map Call.GetMultiCall)]
        = .error e →
      (Execute caller calls).result = .error (.err e) ∧
      rpcCalls (Execute caller calls).trace = []) := by
  unfold Execute
  simp only [multiCalls_eq_map]
  cases hp : caller.Abi.Pack "tryAggregate"
      [.bool false, .calls (calls.map Call.GetMultiCall)] with
  | error e =>
    refine ⟨fun results h => ?_, fun e' he => ?_⟩
    · cases h
    · cases he
      exact ⟨rfl, rfl⟩
  | ok data =>
    simp only
    cases hc : caller.Client.CallContract ⟨caller.ContractAddress, data⟩ with
    | error e =>
      refine ⟨fun results h => ?_, fun e' he => ?_⟩
      · cases h
      · cases he
    | ok resp =>
      refine ⟨fun results _ => ⟨data, rfl, rfl⟩, fun e' he => ?_⟩
      cases he

/-- C15 at a run that returns a map and at a run whose packing fails. -/
theorem Execute_issues_one_call_witness :
    (∃ data,
      (echoCaller [resultA]).Abi.Pack "tryAggregate"
          [.bool false, .calls ([callA].map Call.GetMultiCall)] = .ok data ∧
      rpcCalls (Execute (echoCaller [resultA]) [callA]).trace = [⟨addr 0, data⟩]) ∧
    rpcCalls (Execute unpackableCaller [callA]).trace = [] :=
  ⟨(Execute_issues_one_call (echoCaller [resultA]) [callA]).1
      ⟨[("a", responseOf resultA)]⟩ (by decide),
   ((Execute_issues_one_call unpackableCaller [callA]).2
      ⟨"abi: argument count mismatch"⟩ rfl).2⟩

/-! ## C16: repeated names -/

theorem correlate_len_dedup (responses : List CallResponse) (calls : List Call)
    (hlen : responses.length = calls.length) :
    (correlate responses calls).len = (calls.map Call.Name).dedup.length := by
  have hkeys : ∀ k, k ∈ (correlate responses calls).keys ↔ k ∈ (calls.map Call.Name).dedup := by
    intro k
    rw [correlate_mem_keys, List.map_fst_zip _ _ (by simp [hlen]), List.mem_dedup]
  have hperm := (List.perm_ext_iff_of_nodup (correlate_keys_nodup responses calls)
    (List.nodup_dedup _)).2 hkeys
  have := hperm.length_eq
  simpa [GoMap.len, GoMap.keys] using this

/-- C16: when the decoded result list has the length of the call list, the map
returned by `Execute`, and likewise by `ExecuteBalances`, has one entry per distinct
call name, and the entry of a name is the result at the largest index whose call
has that name. -/
theorem last_occurrence_wins (caller : EthMultiCaller) (calls : List Call)
    (userAddress : String) :
    (∀ responses, Execute.responses caller calls = .ok responses →
      responses.length = calls.length →
      ∃ results, (Execute caller calls).result = .ok results ∧
        results.keys.Nodup ∧
        (∀ n, n ∈ results.keys ↔ n ∈ calls.map Call.Name) ∧
        results.len = (calls.map Call.Name).dedup.length ∧
        ∀ (j : Nat) (c : Call) (r : CallResponse),
          calls[j]? = some c → responses[j]? = some r →
          (∀ (j' : Nat) (c' : Call), j < j' → calls[j']? = some c' → c'.Name ≠ c.Name) →
          results.get? c.Name = some r) ∧
    (∀ responses, ExecuteBalances.responses caller calls userAddress = .ok responses →
      responses.length = calls.length →
      ∃ results, (ExecuteBalances caller calls userAddress).result = .ok results ∧
        results.keys.Nodup ∧
        (∀ n, n ∈ results.keys ↔ n ∈ calls.map Call.Name) ∧
        results.len = (calls.map Call.Name).dedup.length ∧
        ∀ (j : Nat) (c : Call) (r : CallResponse),
          calls[j]? = some c → responses[j]? = some r →
          (∀ (j' : Nat) (c' : Call), j < j' → calls[j']? = some c' → c'.Name ≠ c.Name) →
          results.get? c.Name = some r) := by
  have main : ∀ responses : List CallResponse, responses.length = calls.length →
      (correlate responses calls).keys.Nodup ∧
      (∀ n, n ∈ (correlate responses calls).keys ↔ n ∈ calls.map Call.Name) ∧
      (correlate responses calls).len = (calls.map Call.Name).dedup.length ∧
      ∀ (j : Nat) (c : Call) (r : CallResponse),
        calls[j]? = some c → responses[j]? = some r →
        (∀ (j' : Nat) (c' : Call), j < j' → calls[j']? = some c' → c'.Name ≠ c.Name) →
        (correlate responses calls).get? c.Name = some r := by
    intro responses hlen
    refine ⟨correlate_keys_nodup responses calls, ?_, correlate_len_dedup responses calls hlen,
      ?_⟩
    · intro n
      rw [correlate_mem_keys, List.map_fst_zip _ _ (by simp [hlen])]
    · intro j c r hc hr hlast
      exact correlate_get?_last calls responses j c r hc hr
        (fun j' c' hjj' _ hc' => hlast j' c' hjj' hc')
  refine ⟨fun responses hd hlen => ?_, fun responses hd hlen => ?_⟩
  · exact ⟨_, Execute_result_ok caller calls responses hd (by omega), main responses hlen⟩
  · exact ⟨_, ExecuteBalances_result_ok caller calls userAddress responses hd (by omega),
      main responses hlen⟩

/-- C16 at two calls that are both named `a`: the map has the single entry `a`,
with the second result. -/
theorem last_occurrence_wins_witness :
    (∃ results, (Execute (echoCaller [resultA, resultB]) [callA, callA2]).result
        = .ok results ∧
      results.len = 1 ∧ results.get? "a" = some (responseOf resultB)) ∧
    (∃ results,
      (ExecuteBalances (echoCaller [resultA, resultB]) [callA, callA2] "0x01").result
        = .ok results ∧
      results.len = 1 ∧ results.get? "a" = some (responseOf resultB)) := by
  have h := last_occurrence_wins (echoCaller [resultA, resultB]) [callA, callA2] "0x01"
  have hnone : ∀ (j' : Nat) (c' : Call), 1 < j' → [callA, callA2][j']? = some c' →
      c'.Name ≠ callA2.Name := by
    intro j' c' hj hc'
    rw [List.getElem?_eq_none (by simpa using hj)] at hc'
    cases hc'
  constructor
  · obtain ⟨results, hres, _, _, hlen, hget⟩ :=
      h.1 [responseOf resultA, responseOf resultB] (by decide) (by decide)
    exact ⟨results, hres, by rw [hlen]; decide, hget 1 callA2 _ rfl rfl hnone⟩
  · obtain ⟨results, hres, _, _, hlen, hget⟩ :=
      h.2 [responseOf resultA, responseOf resultB] (by decide) (by decide)
    exact ⟨results, hres, by rw [hlen]; decide, hget 1 callA2 _ rfl rfl hnone⟩

/-! ## C17: fewer results than calls -/

/-- C17: when the decoded result list is not longer than the call list, the loop
of `Execute`, and likewise of `ExecuteBalances`, never indexes `calls` out of
range: a map is returned, and its keys are exactly the names of the first k calls,
k being the number of decoded results. -/
theorem short_response_keys (caller : EthMultiCaller) (calls : List Call)
    (userAddress : String) :
    (∀ responses, Execute.responses caller calls = .ok responses →
      responses.length ≤ calls.length →
      ∃ results, (Execute caller calls).result = .ok results ∧
        ∀ n, n ∈ results.keys ↔ n ∈ (calls.take responses.length).map Call.Name) ∧
    (∀ responses, ExecuteBalances.responses caller calls userAddress = .ok responses →
      responses.length ≤ calls.length →
      ∃ results, (ExecuteBalances caller calls userAddress).result = .ok results ∧
        ∀ n, n ∈ results.keys ↔ n ∈ (calls.take responses.length).map Call.Name) := by
  refine ⟨fun responses hd hlen => ?_, fun responses hd hlen => ?_⟩
  · exact ⟨_, Execute_result_ok caller calls responses hd hlen,
      correlate_mem_keys_take responses calls⟩
  · exact ⟨_, ExecuteBalances_result_ok caller calls userAddress responses hd hlen,
      correlate_mem_keys_take responses calls⟩

/-- C17 at two calls `a`, `b` and one decoded result: the only key is `a`. -/
theorem short_response_keys_witness :
    (∃ results, (Execute (echoCaller [resultA]) [callA, callB]).result = .ok results ∧
      ∀ n, n ∈ results.keys ↔ n ∈ ["a"]) ∧
    (∃ results,
      (ExecuteBalances (echoCaller [resultA]) [callA, callB] "0x01").result = .ok results ∧
      ∀ n, n ∈ results.keys ↔ n ∈ ["a"]) :=
  ⟨(short_response_keys (echoCaller [resultA]) [callA, callB] "0x01").1
      [responseOf resultA] (by decide) (by decide),
   (short_response_keys (echoCaller [resultA]) [callA, callB] "0x01").2
      [responseOf resultA] (by decide) (by decide)⟩

/-! ## Strings that are not well-formed addresses -/

/-- Conversions of strings that are not well-formed: one that is not hexadecimal,
one with a non-ASCII character, one that is longer than twenty bytes. -/
theorem HexToAddress_of_malformed :
    wellFormedAddress "zz" = false ∧ HexToAddress "zz" = addr 0 ∧
    wellFormedAddress "1é" = false ∧ HexToAddress "1é" = addr 1 ∧
    wellFormedAddress "0x0102030405060708091011121314151617181920212223" = false ∧
    (HexToAddress "0x0102030405060708091011121314151617181920212223").val
      = [4, 5, 6, 7, 8, 9, 16, 17, 18, 19, 20, 21, 22, 23, 24, 25, 32, 33, 34, 35] := by
  decide

/-! ## C18: the user address string -/

theorem AbiType.pack_address_error (t : AbiType) (a a' : Address) (e : Error) :
    t.pack (.address a) = .error e ↔ t.pack (.address a') = .error e := by
  cases t <;> simp [AbiType.pack, AbiArg.kind]

theorem packArgumentsLoop_last_address (pre : List (AbiType × AbiArg)) (t : AbiType)
    (a a' : Address) (inputOffset : Nat) (ret variableInput : Bytes) (e : Error) :
    packArgumentsLoop (pre ++ [(t, .address a)]) inputOffset ret variableInput = .error e ↔
      packArgumentsLoop (pre ++ [(t, .address a')]) inputOffset ret variableInput
        = .error e := by
  induction pre generalizing inputOffset ret variableInput with
  | nil =>
    cases t <;> simp [packArgumentsLoop, AbiType.pack, AbiArg.kind, AbiType.isDynamic]
  | cons p pre ih =>
    obtain ⟨t0, a0⟩ := p
    simp only [List.cons_append, packArgumentsLoop]
    cases t0.pack a0 with
    | error err => exact Iff.rfl
    | ok packed =>
      simp only
      split
      · exact ih _ _ _
      · exact ih _ _ _

theorem packArguments_address (inputs : List AbiType) (x y : AbiArg) (a a' : Address)
    (e : Error) :
    packArguments inputs [x, y, .address a] = .error e ↔
      packArguments inputs [x, y, .address a'] = .error e := by
  unfold packArguments
  by_cases hlen : inputs.length = 3
  · match inputs, hlen with
    | [t1, t2, t3], _ =>
      simp only [List.length_cons, List.length_nil, ne_eq, not_true_eq_false, if_false,
        List.zip_cons_cons, List.zip_nil_right]
      exact packArgumentsLoop_last_address [(t1, x), (t2, y)] t3 a a' _ _ _ e
  · have h : ([x, y, AbiArg.address a].length ≠ inputs.length) := by
      simpa using fun h => hlen h.symm
    have h' : ([x, y, AbiArg.address a'].length ≠ inputs.length) := by
      simpa using fun h => hlen h.symm
    rw [if_pos h, if_pos h']
    exact Iff.rfl

theorem AbiDescription.Pack_address (abi : AbiDescription) (name : String) (x y : AbiArg)
    (a a' : Address) (e : Error) :
    abi.Pack name [x, y, .address a] = .error e ↔
      abi.Pack name [x, y, .address a'] = .error e := by
  unfold AbiDescription.Pack
  split
  · exact packArguments_address _ x y a a' e
  · cases abi.Methods.lookup name with
    | none => exact Iff.rfl
    | some method =>
      simp only
      have h := packArguments_address method.Inputs x y a a'
      cases h1 : packArguments method.Inputs [x, y, .address a] with
      | error e1 =>
        have h2 := (h e1).1 h1
        rw [h2]
      | ok d1 =>
        cases h2 : packArguments method.Inputs [x, y, .address a'] with
        | error e2 =>
          have := (h e2).2 h2
          rw [h1] at this
          cases this
        | ok d2 => simp

theorem ok_iff_of_error_iff (r r' : Except Error Bytes)
    (h : ∀ e, r = .error e ↔ r' = .error e) :
    (∃ d, r = .ok d) ↔ ∃ d, r' = .ok d := by
  cases r with
  | error e1 =>
    have := (h e1).1 rfl
    rw [this]
  | ok d1 =>
    cases r' with
    | error e2 =>
      have := (h e2).2 rfl
      cases this
    | ok d2 => simp

theorem ExecuteBalances_fails_at_pack_iff (caller : EthMultiCaller) (calls : List Call)
    (u : String) (e : Error) :
    ((ExecuteBalances caller calls u).result = .error (.err e) ∧
        rpcCalls (ExecuteBalances caller calls u).trace = []) ↔
      caller.Abi.Pack "tryAggregateBalances"
        [.bool false, .customCalls (calls.map Call.GetCustomMultiCall),
         .address (HexToAddress u)] = .error e := by
  unfold ExecuteBalances
  simp only [customMultiCalls_eq_map]
  cases caller.Abi.Pack "tryAggregateBalances"
      [.bool false, .customCalls (calls.map Call.GetCustomMultiCall),
       .address (HexToAddress u)] with
  | error e1 =>
    simp only [rpcCalls, and_true]
    constructor
    · intro h; cases h; rfl
    · intro h; cases h; rfl
  | ok data =>
    simp only
    cases caller.Client.CallContract ⟨caller.ContractAddress, data⟩ with
    | error e1 => simp [rpcCalls]
    | ok resp => simp [rpcCalls]

/-- C18: `ExecuteBalances` has no failure path that depends on `userAddress`.
Every string, hexadecimal or not, of twenty bytes or not, is converted to an
address of twenty bytes and handed to the packer, and with the library packer over
any parsed ABI the packing of a run with `userAddress` succeeds exactly when it
succeeds with any other string, a well-formed address among them, and fails with
the same error when it fails; so a run ends at its packing step with an error for
the one string exactly when it does for the other. -/
theorem userAddress_never_rejected (abi : AbiDescription) (caller : EthMultiCaller)
    (hlib : caller.Abi.Pack = abi.Pack) (calls : List Call) (userAddress other : String) :
    (∃ a : Address, a.val.length = 20 ∧
      (ExecuteBalances caller calls userAddress).trace.head?
        = some (.pack "tryAggregateBalances"
            [.bool false, .customCalls (calls.map Call.GetCustomMultiCall), .address a])) ∧
    ((∃ data, caller.Abi.Pack "tryAggregateBalances"
        [.bool false, .customCalls (calls.map Call.GetCustomMultiCall),
         .address (HexToAddress userAddress)] = .ok data) ↔
      ∃ data, caller.Abi.Pack "tryAggregateBalances"
        [.bool false, .customCalls (calls.map Call.GetCustomMultiCall),
         .address (HexToAddress other)] = .ok data) ∧
    (∀ e, caller.Abi.Pack "tryAggregateBalances"
        [.bool false, .customCalls (calls.map Call.GetCustomMultiCall),
         .address (HexToAddress userAddress)] = .error e ↔
      caller.Abi.Pack "tryAggregateBalances"
        [.bool false, .customCalls (calls.map Call.GetCustomMultiCall),
         .address (HexToAddress other)] = .error e) ∧
    (∀ e,
      ((ExecuteBalances caller calls userAddress).result = .error (.err e) ∧
        rpcCalls (ExecuteBalances caller calls userAddress).trace = []) ↔
      ((ExecuteBalances caller calls other).result = .error (.err e) ∧
        rpcCalls (ExecuteBalances caller calls other).trace = [])) := by
  have herr : ∀ e, caller.Abi.Pack "tryAggregateBalances"
        [.bool false, .customCalls (calls.map Call.GetCustomMultiCall),
         .address (HexToAddress userAddress)] = .error e ↔
      caller.Abi.Pack "tryAggregateBalances"
        [.bool false, .customCalls (calls.map Call.GetCustomMultiCall),
         .address (HexToAddress other)] = .error e := by
    intro e
    rw [hlib]
    exact AbiDescription.Pack_address abi _ _ _ _ _ e
  refine ⟨⟨HexToAddress userAddress, (HexToAddress userAddress).property,
    ExecuteBalances_trace_head caller calls userAddress⟩,
    ok_iff_of_error_iff _ _ herr, herr, ?_⟩
  intro e
  rw [ExecuteBalances_fails_at_pack_iff, ExecuteBalances_fails_at_pack_iff]
  exact herr e

/-- C18 at the caller with the library packer over `MultiCallABI`: the string
`zz`, which is not hexadecimal, packs exactly when the well-formed address string
of the address ending in 1 packs, and a run with either ends at its packing step
with an error exactly when a run with the other does. -/
theorem userAddress_never_rejected_witness :
    wellFormedAddress (addressHex (addr 1)) = true ∧
    wellFormedAddress "zz" = false ∧
    ((∃ data, (libraryCaller (.ok [7]) [unpackedResults [resultA]]).Abi.Pack
        "tryAggregateBalances"
        [.bool false, .customCalls ([callA].map Call.GetCustomMultiCall),
         .address (HexToAddress "zz")] = .ok data) ↔
      ∃ data, (libraryCaller (.ok [7]) [unpackedResults [resultA]]).Abi.Pack
        "tryAggregateBalances"
        [.bool false, .customCalls ([callA].map Call.GetCustomMultiCall),
         .address (HexToAddress (addressHex (addr 1)))] = .ok data) ∧
    (∀ e,
      ((ExecuteBalances (libraryCaller (.ok [7]) [unpackedResults [resultA]]) [callA]
          "zz").result = .error (.err e) ∧
        rpcCalls (ExecuteBalances (libraryCaller (.ok [7]) [unpackedResults [resultA]])
          [callA] "zz").trace = []) ↔
      ((ExecuteBalances (libraryCaller (.ok [7]) [unpackedResults [resultA]]) [callA]
          (addressHex (addr 1))).result = .error (.err e) ∧
        rpcCalls (ExecuteBalances (libraryCaller (.ok [7]) [unpackedResults [resultA]])
          [callA] (addressHex (addr 1))).trace = [])) :=
  have h := userAddress_never_rejected MultiCallABI.description
    (libraryCaller (.ok [7]) [unpackedResults [resultA]]) rfl [callA] "zz"
    (addressHex (addr 1))
  ⟨by decide, by decide, h.2.1, h.2.2.2⟩

/-- The run of the balance variant with the string `zz` through the library
packer: packing succeeds, one call is issued and the map is returned. -/
theorem ExecuteBalances_of_malformed_runs :
    rpcCalls (ExecuteBalances (libraryCaller (.ok [7]) [unpackedResults [resultA]]) [callA]
      "zz").trace ≠ [] ∧
    (ExecuteBalances (libraryCaller (.ok [7]) [unpackedResults [resultA]]) [callA]
      "zz").result = .ok ⟨[("a", responseOf resultA)]⟩ := by
  decide

end GoEthMulticall
